import Mathlib

/-!
# Verification of the codex-telegram-bridge command orchestration core

A shallow embedding, in Lean 4, of the parts of `bot.js` and
`src/message-utils.js` that the specification's claims are about.

Conventions of the embedding:
* JavaScript strings are modelled as `List Char` (UTF-16 code points are
  modelled as Lean `Char`s; every string literal in the source is ASCII).
* Subprocess results (`runCommand`) are modelled as a `GitRes` record
  `{code, out, err}` supplied by an `Env` of environment outcomes, since the
  actual subprocess behaviour is outside the program.
* Timestamps (`new Date().toISOString()`) are modelled as opaque `Nat`s
  supplied by the environment.
* The Telegram transport always succeeds; each `bot.sendMessage` /
  `sendLongMessage` call is recorded as an `Event`.
-/

namespace Bridge

/-- The string type of the embedding: JS strings as lists of characters. -/
abbrev Str := List Char

/-- Coerce a Lean string literal to the embedding's string type. -/
def str (s : String) : Str := s.data

/-- JS whitespace characters relevant to `String.prototype.trim`, `\s` and
`split(/\s+/)` for the ASCII texts this program manipulates. -/
def isWS (c : Char) : Bool :=
  c = ' ' || c = '\t' || c = '\n' || c = '\r' || c = '\x0b' || c = '\x0c'

/-- `String.prototype.trimStart`. -/
def trimL (s : Str) : Str := s.dropWhile isWS

/-- `String.prototype.trimEnd`. -/
def trimR (s : Str) : Str := (s.reverse.dropWhile isWS).reverse

/-- `String.prototype.trim`. -/
def trim (s : Str) : Str := trimR (trimL s)

/-- `String.prototype.toLowerCase` (ASCII-adequate). -/
def lower (s : Str) : Str := s.map Char.toLower

/-- `needle` occurs as a contiguous substring of `s` (used to model regex
matching of fixed phrases). -/
def containsSub (s pat : Str) : Bool :=
  (List.range (s.length + 1)).any fun i => pat.isPrefixOf (s.drop i)

/-- JS `String.prototype.lastIndexOf(pat, fromIndex)`: the largest start
index `≤ fromIndex` where `pat` occurs, `-1` (here `none`) if none. -/
def lastIndexOf? (s pat : Str) (fromIndex : Nat) : Option Nat :=
  ((List.range (fromIndex + 1)).reverse).find? fun i => pat.isPrefixOf (s.drop i)

/-- JS `lastIndexOf` with the `-1` sentinel, as the source compares it with
numbers. -/
def lastIndexOfI (s pat : Str) (fromIndex : Nat) : Int :=
  match lastIndexOf? s pat fromIndex with
  | some i => (i : Int)
  | none => -1

/-- The longest leading run of decimal digits, `none` when there is none
(the digits part of JS `Number.parseInt(·, 10)`). -/
def digitsVal (s : Str) : Option Nat :=
  let ds := s.takeWhile (·.isDigit)
  if ds = [] then none
  else some (ds.foldl (fun a c => a * 10 + (c.toNat - '0'.toNat)) 0)

/-- JS `Number.parseInt(s, 10)` on an already-trimmed string: an optional
sign followed by a digit prefix; `none` models `NaN`. -/
def parseIntM : Str → Option Int
  | '-' :: rest => (digitsVal rest).map fun n => -(n : Int)
  | '+' :: rest => (digitsVal rest).map fun n => (n : Int)
  | s => (digitsVal s).map fun n => (n : Int)

/-- `${n}` for a natural number. -/
def natStr (n : Nat) : Str := Nat.toDigits 10 n

/-- Tokens of `text.split(/\s+/)` for a trimmed `text` (leading whitespace
is skipped, runs of whitespace separate tokens). -/
def splitWS : Str → List Str
  | [] => []
  | c :: rest =>
    if isWS c then splitWS rest
    else (c :: rest.takeWhile (fun d => !isWS d)) :: splitWS (rest.dropWhile (fun d => !isWS d))
termination_by s => s.length
decreasing_by
  · simp only [List.length_cons]; omega
  · have := (List.dropWhile_sublist (l := rest) (p := fun d => !isWS d)).length_le
    simp only [List.length_cons]; omega

/-! ## `src/message-utils.js` -/

/-- The cut-point selection of one `chunkTextByParagraph` loop iteration
from `src/message-utils.js`: the last `"\n\n"` at or before `maxLen`; if
that is before `Math.floor(maxLen * 0.5)` (which is `maxLen / 2` on
naturals), retry with `"\n"`, then with `" "`; if the cut is still `≤ 0`,
hard-cut at `maxLen`. JS `lastIndexOf` returning `-1` is modelled by
`lastIndexOfI`. -/
def chunkCut (remaining : Str) (maxLen : Nat) : Nat :=
  let cut1 : Int := lastIndexOfI remaining (str "\n\n") maxLen
  let cut2 : Int := if cut1 < (maxLen / 2 : Nat) then lastIndexOfI remaining (str "\n") maxLen else cut1
  let cut3 : Int := if cut2 < (maxLen / 2 : Nat) then lastIndexOfI remaining (str " ") maxLen else cut2
  if cut3 ≤ 0 then maxLen else cut3.toNat

/-- The `while` loop of `chunkTextByParagraph`, with explicit fuel (for
`maxLen ≥ 1` the fuel `remaining.length + 1` is always sufficient: every
iteration strictly shortens `remaining`): push the trimmed head before the
cut, continue on the trimmed tail, and finally push any non-empty
remainder. -/
def chunkAux : Nat → Str → Nat → List Str
  | 0, _, _ => []
  | fuel + 1, remaining, maxLen =>
    if remaining.length > maxLen then
      let cut : Nat := chunkCut remaining maxLen
      trim (remaining.take cut) :: chunkAux fuel (trim (remaining.drop cut)) maxLen
    else if remaining ≠ [] then [remaining] else []

/-- `chunkTextByParagraph(text, maxLen)` from `src/message-utils.js`:
the loop starts from the trimmed input. -/
def chunkTextByParagraph (text : Str) (maxLen : Nat) : List Str :=
  chunkAux ((trim text).length + 1) (trim text) maxLen

/-- A line matches `/^.*not allowed to run `?git push`?.*$/gim`, i.e. it
contains, case-insensitively, the phrase with or without the optional
backtick (the trailing optional backtick is absorbed by `.*`). -/
def matchP1 (line : Str) : Bool :=
  containsSub (lower line) (str "not allowed to run git push") ||
  containsSub (lower line) (str "not allowed to run `git push")

/-- A line matches `/^.*cannot run `?git push`?.*$/gim`. -/
def matchP2 (line : Str) : Bool :=
  containsSub (lower line) (str "cannot run git push") ||
  containsSub (lower line) (str "cannot run `git push")

/-- A line matches `/^.*please push.*$/gim`. -/
def matchP3 (line : Str) : Bool :=
  containsSub (lower line) (str "please push")

/-- A line matches `/^.*push `?main`? when you can.*$/gim` (four backtick
combinations). -/
def matchP4 (line : Str) : Bool :=
  containsSub (lower line) (str "push main when you can") ||
  containsSub (lower line) (str "push `main when you can") ||
  containsSub (lower line) (str "push main` when you can") ||
  containsSub (lower line) (str "push `main` when you can")

/-- A line matches one of the four narration patterns of
`sanitizePushNarration`. -/
def matchesNarration (line : Str) : Bool :=
  matchP1 line || matchP2 line || matchP3 line || matchP4 line

/-- An ECMAScript LineTerminator: `\n`, `\r`, U+2028 or U+2029. With the
`m` flag, `^` and `$` anchor around these and `.` cannot cross them, so
each `gim` pattern of `sanitizePushNarration` matches inside the maximal
terminator-free segments of the text. -/
def isLineTerm (c : Char) : Bool :=
  c = '\n' || c = '\r' || c = '\u2028' || c = '\u2029'

/-- The four `replace(pattern, "")` passes of `sanitizePushNarration` as
one pass over the maximal terminator-free segments: a matching segment is
replaced by the empty string (the terminators themselves are not part of
the match and stay). A blanked segment cannot match a later pattern, so
applying the four anchored patterns in sequence equals this single pass
with `matchesNarration`. -/
def blankNarrationSegsAux : Nat → Str → Str
  | 0, _ => []
  | fuel + 1, s =>
    let seg := s.takeWhile fun c => !isLineTerm c
    (if matchesNarration seg then [] else seg) ++
      (match s.drop seg.length with
       | [] => []
       | c :: r => c :: blankNarrationSegsAux fuel r)

/-- The segment pass at its always-sufficient fuel `s.length + 1` (each
step consumes at least the terminator character). -/
def blankNarrationSegs (s : Str) : Str := blankNarrationSegsAux (s.length + 1) s

/-- `replace(/\n{3,}/g, "\n\n")`: keep at most the first two newlines of
every maximal newline run. `k` counts the newlines kept in the current
run. -/
def collapse3Aux : Nat → Str → Str
  | _, [] => []
  | k, c :: rest =>
    if c = '\n' then
      if k ≥ 2 then collapse3Aux k rest
      else c :: collapse3Aux (k + 1) rest
    else c :: collapse3Aux 0 rest

/-- `sanitizePushNarration(text)` from `src/message-utils.js`: blank out
every terminator-free segment matching a narration pattern, collapse runs
of 3+ newlines to two, trim. -/
def sanitizePushNarration (text : Str) : Str :=
  trim (collapse3Aux 0 (blankNarrationSegs text))

/-- `isOneTapPushCommand(text)` from `src/message-utils.js`:
`/^\/push\s+commit and push$/i` on the trimmed text. -/
def isOneTapPushCommand (text : Str) : Bool :=
  let s := lower (trim text)
  (str "/push").isPrefixOf s &&
    (let rest := s.drop 5
     decide (rest.takeWhile isWS ≠ []) && rest.dropWhile isWS = str "commit and push")

/-! ## `bot.js` data model

The per-conversation session store, the repo-alias registry, and the
records of subprocess results. JS objects with string keys preserve
insertion order, so the stores are association lists; property
assignment/overwrite/delete are `jsoSet`/`jsoDelete`. -/

/-- One history entry `{role, content, ts}` (`bot.js` `addHistory`);
the ISO timestamp string is modelled as an opaque `Nat`. -/
structure Turn where
  role : Str
  content : Str
  ts : Nat
deriving DecidableEq, Repr

/-- A staged push `{description, createdAt}` (`bot.js` `/push` handler). -/
structure PendingPush where
  description : Str
  createdAt : Nat
deriving DecidableEq, Repr

/-- One session `{history, pendingPush}`. -/
structure Session where
  history : List Turn
  pendingPush : Option PendingPush
deriving DecidableEq, Repr

/-- `{ history: [], pendingPush: null }`. -/
def emptySession : Session := { history := [], pendingPush := none }

/-- Lookup of a JS object property (`obj[k]`, `undefined` as `none`). -/
def jsoLookup {α : Type} (m : List (Str × α)) (k : Str) : Option α :=
  (m.find? fun p => p.1 == k).map (·.2)

/-- JS property assignment `obj[k] = v`: overwrite in place when the key
exists, append otherwise (string keys keep insertion order). -/
def jsoSet {α : Type} (m : List (Str × α)) (k : Str) (v : α) : List (Str × α) :=
  if m.any (fun p => p.1 == k) then
    m.map fun p => if p.1 == k then (k, v) else p
  else m ++ [(k, v)]

/-- JS `delete obj[k]`. -/
def jsoDelete {α : Type} (m : List (Str × α)) (k : Str) : List (Str × α) :=
  m.filter fun p => !(p.1 == k)

/-- The session store `sessions`, keyed by `String(chatId)`. -/
abbrev SessionMap := List (Str × Session)

/-- `getSession(chatId)` (`bot.js` lines 73–79): return the existing
session, or create (and store) an empty one. -/
def getSession (m : SessionMap) (k : Str) : Session × SessionMap :=
  match jsoLookup m k with
  | some s => (s, m)
  | none => (emptySession, m ++ [(k, emptySession)])

/-- The configuration object (`src/config.js` fields used by the
handler; `applyRepoSelection` mutates the repo-derived fields in place).
`path.resolve`/`path.join` are modelled as identity/`++ "/"` on the
already-absolute paths involved. -/
structure Config where
  targetRepoDir : Str
  targetBranch : Str
  targetRemote : Str
  githubToken : Str
  inputsSubdir : Str
  inputsDir : Str
  primaryGitDir : Str
  telegramMax : Nat
  historyTurns : Nat
  historyStoreLimit : Nat
  resultStoreLimit : Nat
  codexTimeoutMs : Nat
deriving DecidableEq, Repr

/-- JS `Array.prototype.slice(-n)` on the history list (`-0` is `0`, which
slices from the start and keeps everything). -/
def sliceNeg (l : List Turn) (n : Nat) : List Turn :=
  if n = 0 then l else l.drop (l.length - n)

/-- `addHistory` body on one session (`bot.js` lines 81–91): truncate the
content to `resultStoreLimit`, append with the current timestamp, evict the
oldest entries beyond `historyStoreLimit`. -/
def addHistoryS (cfg : Config) (s : Session) (role content : Str) (ts : Nat) : Session :=
  let h := s.history ++ [{ role := role, content := content.take cfg.resultStoreLimit, ts := ts }]
  { s with history := if h.length > cfg.historyStoreLimit then sliceNeg h cfg.historyStoreLimit else h }

/-- `addHistory(chatId, role, content)` at the store level: `getSession`
then in-place mutation of the session object. -/
def addHistory (cfg : Config) (m : SessionMap) (k role content : Str) (ts : Nat) : SessionMap :=
  let (s, m1) := getSession m k
  jsoSet m1 k (addHistoryS cfg s role content ts)

/-- A `runCommand` result `{code, out, err}` (`bot.js` lines 178–192);
`resolve({ code, out, err })` on close, spawn assumed to succeed. -/
structure GitRes where
  code : Nat
  out : Str
  err : Str
deriving DecidableEq, Repr

/-- `x || "(empty)"`. -/
def emptyOr (s : Str) : Str := if s ≠ [] then s else str "(empty)"

/-- `res.err || res.out || "(empty)"`. -/
def gitFailDetail (r : GitRes) : Str :=
  if r.err ≠ [] then r.err else if r.out ≠ [] then r.out else str "(empty)"

/-- `getHeadCommit()` (`bot.js` lines 413–419) on a given `git rev-parse
HEAD` result: throw on nonzero exit, else the trimmed stdout. -/
def getHeadCommitE (r : GitRes) : Except Str Str :=
  if r.code ≠ 0 then .error (str "Unable to read git HEAD.\n" ++ gitFailDetail r)
  else .ok (trim r.out)

/-- `getAheadCount()` (`bot.js` lines 530–536): `0` on nonzero exit or
unparseable output, else the parsed count. -/
def getAheadCount (r : GitRes) : Int :=
  if r.code ≠ 0 then 0
  else
    match parseIntM (trim r.out) with
    | some n => n
    | none => 0

/-- `buildDiffPreview` (`bot.js` lines 208–220) on a given diff result:
empty on failure or empty diff, truncated at 3500 characters. -/
def buildDiffPreview (r : GitRes) : Str :=
  if r.code ≠ 0 then []
  else
    let t := trim r.out
    if t = [] then []
    else if t.length > 3500 then t.take 3500 ++ str "\n... (diff preview truncated)"
    else t

/-- `hasRelevantWorkingTreeChanges()` (`bot.js` lines 555–559). -/
def hasRelevantWorkingTreeChanges (r : GitRes) : Bool :=
  if r.code ≠ 0 then false else trim r.out ≠ []

/-- `hasWorkNotOnRemote()` (`bot.js` lines 561–565). -/
def hasWorkNotOnRemote (aheadRes statusRes : GitRes) : Bool :=
  if getAheadCount aheadRes > 0 then true else hasRelevantWorkingTreeChanges statusRes

/-- The terminal outcome of the `codex` child process: normal exit with
captured output, wall-clock timeout, or a spawn error (`bot.js`
`runCodex`). The `finished` flag makes these mutually exclusive, so the
outcome is a single value. -/
inductive CodexOutcome
  | exited (code : Nat) (out err : Str)
  | timeout
  | spawnError (msg : Str)
deriving DecidableEq, Repr

/-- The `close` handler of `runCodex` (`bot.js` lines 165–174): nonzero
exit rejects with `err || "codex exited with code N"`, exit 0 resolves
with `out || "(no output)"`. -/
def runCodexClose (code : Nat) (out err : Str) : Except Str Str :=
  if code ≠ 0 then
    .error (if err ≠ [] then err else str "codex exited with code " ++ natStr code)
  else .ok (if out ≠ [] then out else str "(no output)")

/-- The timeout rejection message of `runCodex`. -/
def codexTimeoutMsg (cfg : Config) : Str :=
  str "codex timed out after " ++ natStr cfg.codexTimeoutMs ++
  str "ms. Increase CODEX_TIMEOUT_MS if needed."

/-- `runCodex` as a function of the process outcome. -/
def runCodexE (cfg : Config) : CodexOutcome → Except Str Str
  | .timeout => .error (codexTimeoutMsg cfg)
  | .spawnError m => .error m
  | .exited c o e => runCodexClose c o e

/-- A repository definition `{dir, branch, remote}`. -/
structure RepoDef where
  dir : Str
  branch : Str
  remote : Str
deriving DecidableEq, Repr

/-- The repo-alias registry `{aliases, active}` (`bot.js`
`repoAliasStore`). -/
structure AliasStore where
  aliases : List (Str × RepoDef)
  active : Option Str
deriving DecidableEq, Repr

/-- `normalizeAliasName` (`bot.js` lines 222–224). -/
def normalizeAliasName (name : Str) : Str := lower (trim name)

/-- The environment of one message-handling turn: results of the git and
codex subprocesses, filesystem `access` checks, GitHub API outcomes, and
timestamps. These are inputs of the program, not part of it. -/
structure Env where
  ts : Nat
  ts2 : Nat
  revParseHead1 : GitRes
  codexProbe : GitRes
  codex : CodexOutcome
  revParseHead2 : GitRes
  revListAhead : GitRes
  statusPorcelain : GitRes
  push : GitRes
  diffAfter : GitRes
  diffWorking : GitRes
  revListAhead2 : GitRes
  statusExcl : GitRes
  accessOk : Str → Bool
  prBranch : GitRes
  prPush : GitRes
  prHead : GitRes
  prDiff : GitRes
  prCreate : Except Str Str

/-- The mutable module state of `bot.js`: the `busy` gate, the in-memory
`sessions` and `repoAliasStore`, the mutable `config`, plus the last
content written to each store file (`saveSessions` /
`saveRepoAliasStore`). -/
structure BotState where
  cfg : Config
  busy : Bool
  sessions : SessionMap
  repoAliasStore : AliasStore
  sessionsDisk : SessionMap
  aliasDisk : AliasStore
deriving DecidableEq, Repr

/-- The user-visible replies of the handler. Replies whose wording plays
no role in any claim carry only their distinguishing payload. -/
inductive Msg
  | startHelp
  | cleared
  | stateReport (histLen : Nat) (pendingCreatedAt : Option Nat)
  | repoHelp
  | repoList
  | repoBusy
  | repoInvalidAlias
  | repoAddUsage
  | repoNotGit
  | repoAdded (name : Str)
  | repoUseUsage
  | repoUseDefault
  | repoAliasNotFound (name : Str)
  | repoUsed (name : Str)
  | repoRemoveUsage
  | repoRemoved (name : Str)
  | repoUnknown
  | pushUsage
  | pushStagedKeyboard
  | pushStagedText (description : Str)
  | pushCanceled
  | prUsage
  | prNoToken
  | prCreating
  | prCreated (info : Str)
  | prFailed (e : Str)
  | noPendingPush
  | busyMsg
  | running
  | errorText (e : Str)
deriving DecidableEq, Repr

/-- Observable actions of one handler run, in program order. -/
inductive Event
  | sent (m : Msg)
  | sentLong (text : Str) (keyboard : Bool)
  | savedSessions
  | savedAliasStore
  | ranCodex
  | ranGitPush
  | monitoredActions
  | clearedPendingPush
  | unhandledRepoError
deriving DecidableEq, Repr

/-! ## `bot.js` message handler

The `bot.on("message", ...)` handler (lines 655–1019), for text messages
from the allowed user in the private chat (`hasImage`/`hasMedia` false, so
the media branches are inert and the guarded prompt — which only feeds the
codex subprocess, whose outcome the `Env` supplies — is not materialised).
Telegram delivery is assumed to succeed; each reply is an `Event`. -/

/-- The `.git-codex` cleanup error of the `/confirmpush` pre-check
(`bot.js` lines 841–844). -/
def codexCleanupMsg : Str :=
  str "Detected commits ahead in .git-codex. Clean this up before using /confirmpush so only .git is the source of truth."

/-- The skipped-push status block (`bot.js` lines 948–953). -/
def skippedBlock (dirty : Bool) : Str :=
  str "\n\nPush status:\n- Skipped: no new commit was created in .git.\n" ++
  (if dirty then str "- Working tree still has uncommitted changes."
   else str "- Working tree is clean.")

/-- The pushed status block (`bot.js` lines 966–968). -/
def pushedBlock (cfg : Config) : Str :=
  str "\n\nPush status:\n- Ran: git -C " ++ cfg.targetRepoDir ++ str " push " ++
  cfg.targetRemote ++ str " " ++ cfg.targetBranch ++ str "\n- Result: success"

/-- The push-failure error (`bot.js` lines 961–963). -/
def pushFailedMsg (r : GitRes) : Str :=
  str "Codex completed, but git push failed.\n\nstdout:\n" ++ emptyOr r.out ++
  str "\n\nstderr:\n" ++ emptyOr r.err

/-- Appending the labelled diff preview (`bot.js` lines 997–1002). -/
def appendDiff (msg : Str) (isPush : Bool) (diff : Str) : Str :=
  if diff ≠ [] then
    msg ++ str "\n\n" ++
    (if isPush then str "Diff preview (latest commit):"
     else str "Diff preview (working tree):") ++ str "\n" ++ diff
  else msg

/-- The history entry recorded for the user turn (`bot.js` lines 927–932,
with no screenshot attached). -/
def historyUserText (isPush : Bool) (userText : Str) : Str :=
  if isPush then str "/confirmpush " ++ userText
  else if userText ≠ [] then userText else str "(image-only message)"

/-- `session.pendingPush = null` in the handler: clear the pending push of
the chat's session object. -/
def clearPending (m : SessionMap) (k : Str) : SessionMap :=
  match jsoLookup m k with
  | some s => jsoSet m k { s with pendingPush := none }
  | none => m

/-- The body of the handler's `try` block after the `/confirmpush`
pre-checks (`bot.js` lines 848–1008): record the user turn, run codex,
sanitize push output, record the assistant turn, then either the push flow
(skip or push) or the plain flow. Errors carry the in-memory sessions and
the events up to the throw. -/
def tryBody (env : Env) (cfg : Config) (isPush : Bool) (ck userText headBefore : Str)
    (sessions1 : SessionMap) :
    Except (SessionMap × List Event × Str) (SessionMap × List Event) :=
  let sessions2 := addHistory cfg sessions1 ck (str "user") (historyUserText isPush userText) env.ts
  match runCodexE cfg env.codex with
  | .error e => .error (sessions2, [.ranCodex], e)
  | .ok resultRaw =>
    let result := if isPush then sanitizePushNarration resultRaw else resultRaw
    let sessions3 := addHistory cfg sessions2 ck (str "assistant") result env.ts2
    if isPush then
      match getHeadCommitE env.revParseHead2 with
      | .error e => .error (sessions3, [.ranCodex], e)
      | .ok headAfter =>
        if headAfter = headBefore ∧ getAheadCount env.revListAhead = 0 then
          let statusSummary := trim env.statusPorcelain.out
          let finalMessage := result ++ skippedBlock (statusSummary ≠ [])
          let sessions4 := clearPending sessions3 ck
          .ok (sessions4,
            [.ranCodex, .clearedPendingPush, .savedSessions, .sentLong finalMessage false])
        else
          if env.push.code ≠ 0 then
            .error (sessions3, [.ranCodex, .ranGitPush], pushFailedMsg env.push)
          else
            let finalMessage := appendDiff (result ++ pushedBlock cfg) true
              (buildDiffPreview env.diffAfter)
            let sessions4 := clearPending sessions3 ck
            .ok (sessions4,
              [.ranCodex, .ranGitPush, .monitoredActions, .clearedPendingPush,
               .savedSessions, .sentLong finalMessage false])
    else
      let finalMessage := appendDiff result false (buildDiffPreview env.diffWorking)
      let hasWork := hasWorkNotOnRemote env.revListAhead2 env.statusExcl
      .ok (sessions3, [.ranCodex, .savedSessions, .sentLong finalMessage hasWork])

/-- The `.git-codex` pre-check condition (`bot.js` lines 838–841): the
shadow-context `rev-list --count` probe exits 0 and its output parses to a
finite count greater than 0. -/
def codexProbeAheadPositive (env : Env) : Bool :=
  env.codexProbe.code == 0 &&
    (match parseIntM (trim env.codexProbe.out) with
     | some n => decide (0 < n)
     | none => false)

/-- The handler's `try` block (`bot.js` lines 825–1008): for a confirmed
push, first `getHeadCommit`, then the `.git-codex` ahead pre-check
(abort before codex when the probe exits 0 and reports a finite count
greater than 0). -/
def tryFull (env : Env) (cfg : Config) (isPush : Bool) (ck userText : Str)
    (sessions1 : SessionMap) :
    Except (SessionMap × List Event × Str) (SessionMap × List Event) :=
  if isPush then
    match getHeadCommitE env.revParseHead1 with
    | .error e => .error (sessions1, [], e)
    | .ok headBefore =>
      if codexProbeAheadPositive env = true then
        .error (sessions1, [], codexCleanupMsg)
      else tryBody env cfg true ck userText headBefore sessions1
  else tryBody env cfg false ck userText [] sessions1

/-- The tail of the message handler (`bot.js` lines 800–1019): the
no-pending-push guard, the busy guard, the `try`/`catch`/`finally` with
unconditional `pendingPush` clearing on the `/confirmpush` error path and
`busy` release. -/
def mainPath (env : Env) (st : BotState) (ck text : Str) : BotState × List Event :=
  let isConfirmPush : Bool := text == str "/confirmpush"
  let sg := getSession st.sessions ck
  let session := sg.1
  let sessions1 := sg.2
  let isPush : Bool := isConfirmPush && session.pendingPush.isSome
  let userText :=
    if isPush then
      match session.pendingPush with
      | some p => p.description
      | none => []
    else if isConfirmPush then [] else text
  if isConfirmPush && session.pendingPush.isNone then
    ({ st with sessions := sessions1 }, [.sent .noPendingPush])
  else if st.busy then
    ({ st with sessions := sessions1 }, [.sent .busyMsg])
  else
    match tryFull env st.cfg isPush ck userText sessions1 with
    | .ok (sessions2, ev) =>
      ({ st with busy := false, sessions := sessions2, sessionsDisk := sessions2 },
       [.sent .running] ++ ev)
    | .error (sessionsE, ev, e) =>
      if isConfirmPush then
        let sessions2 := clearPending sessionsE ck
        ({ st with busy := false, sessions := sessions2, sessionsDisk := sessions2 },
         [.sent .running] ++ ev ++
           [.clearedPendingPush, .savedSessions, .sent (.errorText (e.take st.cfg.telegramMax))])
      else
        ({ st with busy := false, sessions := sessionsE },
         [.sent .running] ++ ev ++ [.sent (.errorText (e.take st.cfg.telegramMax))])

/-- `applyRepoSelection(def, aliasName, {persist, resetSessions})`
(`bot.js` lines 235–255): validate the `.git` marker (throwing before any
mutation when absent), update the repo-derived config fields, set the
active alias, optionally persist the registry, optionally clear and
persist all sessions. -/
def applyRepoSelection (defDef : RepoDef) (env : Env) (st : BotState) (d : RepoDef)
    (aliasName : Option Str) (persist resetSessions : Bool) :
    Except Unit (BotState × List Event) :=
  if env.accessOk (d.dir ++ str "/.git") = false then .error ()
  else
    let cfg' := { st.cfg with
      targetRepoDir := d.dir
      targetBranch := if d.branch ≠ [] then d.branch else defDef.branch
      targetRemote := if d.remote ≠ [] then d.remote else defDef.remote
      inputsDir := d.dir ++ str "/" ++ st.cfg.inputsSubdir
      primaryGitDir := d.dir ++ str "/.git" }
    let store' := { st.repoAliasStore with active := aliasName }
    let st1 := { st with cfg := cfg', repoAliasStore := store' }
    let pr := if persist then ({ st1 with aliasDisk := store' }, [Event.savedAliasStore])
      else (st1, [])
    if resetSessions then
      (.ok ({ pr.1 with sessions := [], sessionsDisk := [] }, pr.2 ++ [Event.savedSessions]))
    else .ok pr

/-- `handleRepoCommand(chatId, text)` (`bot.js` lines 312–411). A thrown
`applyRepoSelection` validation error escapes this handler uncaught in the
source; it is recorded as `Event.unhandledRepoError` with the state as of
the throw. -/
def handleRepoCommand (defDef : RepoDef) (env : Env) (st : BotState) (text : Str) :
    BotState × List Event :=
  let parts := splitWS (trim text)
  let action := lower (parts.getD 1 [])
  if action = [] ∨ action = str "help" then (st, [.sent .repoHelp])
  else if action = str "list" then (st, [.sent .repoList])
  else if st.busy then (st, [.sent .repoBusy])
  else if action = str "add" then
    let aliasName := normalizeAliasName (parts.getD 2 [])
    let branch := match parts.get? 4 with | some b => b | none => defDef.branch
    let remote := match parts.get? 5 with | some r => r | none => defDef.remote
    if aliasName = [] ∨ aliasName = str "default" then (st, [.sent .repoInvalidAlias])
    else
      match parts.get? 3 with
      | none => (st, [.sent .repoAddUsage])
      | some repoPath =>
        if env.accessOk (repoPath ++ str "/.git") = false then (st, [.sent .repoNotGit])
        else
          let store' := { st.repoAliasStore with
            aliases := jsoSet st.repoAliasStore.aliases aliasName
              { dir := repoPath, branch := branch, remote := remote } }
          ({ st with repoAliasStore := store', aliasDisk := store' },
           [.savedAliasStore, .sent (.repoAdded aliasName)])
  else if action = str "use" then
    let aliasName := normalizeAliasName (parts.getD 2 [])
    if aliasName = [] then (st, [.sent .repoUseUsage])
    else if aliasName = str "default" then
      match applyRepoSelection defDef env st defDef none true true with
      | .error () => (st, [.unhandledRepoError])
      | .ok (st', ev) => (st', ev ++ [.sent .repoUseDefault])
    else
      match jsoLookup st.repoAliasStore.aliases aliasName with
      | none => (st, [.sent (.repoAliasNotFound aliasName)])
      | some aliasConfig =>
        match applyRepoSelection defDef env st aliasConfig (some aliasName) true true with
        | .error () => (st, [.unhandledRepoError])
        | .ok (st', ev) => (st', ev ++ [.sent (.repoUsed aliasName)])
  else if action = str "remove" then
    let aliasName := normalizeAliasName (parts.getD 2 [])
    if aliasName = [] ∨ aliasName = str "default" then (st, [.sent .repoRemoveUsage])
    else
      match jsoLookup st.repoAliasStore.aliases aliasName with
      | none => (st, [.sent (.repoAliasNotFound aliasName)])
      | some _ =>
        let store1 := { st.repoAliasStore with
          aliases := jsoDelete st.repoAliasStore.aliases aliasName }
        if st.repoAliasStore.active = some aliasName then
          let st1 := { st with repoAliasStore := { store1 with active := none } }
          match applyRepoSelection defDef env st1 defDef none true true with
          | .error () => (st1, [.unhandledRepoError])
          | .ok (st', ev) => (st', ev ++ [.sent (.repoRemoved aliasName)])
        else
          ({ st with repoAliasStore := store1, aliasDisk := store1 },
           [.savedAliasStore, .sent (.repoRemoved aliasName)])
  else (st, [.sent .repoUnknown])

/-- The `try` block of the `/pr` handler (`bot.js` lines 773–790):
current branch, `git push` of it, `HEAD`, diff preview, then the GitHub
create-PR call, whose network outcome `env.prCreate` supplies. -/
def prTry (env : Env) : Except (List Event × Str) (List Event) :=
  if env.prBranch.code ≠ 0 then
    .error ([], str "Unable to determine branch.\n" ++ gitFailDetail env.prBranch)
  else if env.prPush.code ≠ 0 then
    .error ([.ranGitPush],
      str "git push failed while preparing PR.\nstdout:\n" ++ emptyOr env.prPush.out ++
      str "\n\nstderr:\n" ++ emptyOr env.prPush.err)
  else if env.prHead.code ≠ 0 then
    .error ([.ranGitPush], str "Unable to read git HEAD.\n" ++ gitFailDetail env.prHead)
  else
    match env.prCreate with
    | .error e => .error ([.ranGitPush], e)
    | .ok info => .ok ([.ranGitPush, .sent (.prCreated info)])

/-- The `/pr` branch of the handler (`bot.js` lines 751–798). -/
def handlePr (env : Env) (st : BotState) (text : Str) : BotState × List Event :=
  let rest := (text.drop 3).dropWhile isWS
  let titleRaw := trim (rest.takeWhile fun c => c ≠ '|')
  if titleRaw = [] then (st, [.sent .prUsage])
  else if st.cfg.githubToken = [] then (st, [.sent .prNoToken])
  else if st.busy then (st, [.sent .busyMsg])
  else
    match prTry env with
    | .ok ev => ({ st with busy := false }, [.sent .prCreating] ++ ev)
    | .error (ev, e) =>
      ({ st with busy := false }, [.sent .prCreating] ++ ev ++ [.sent (.prFailed e)])

/-- The command dispatch of the message handler (`bot.js` lines 676–820),
in source order, on the trimmed text. -/
def dispatch (defDef : RepoDef) (env : Env) (st : BotState) (ck text : Str) :
    BotState × List Event :=
  if text = [] then (st, [])
  else if text = str "/start" then (st, [.sent .startHelp])
  else if text = str "/new" ∨ text = str "/clear" then
    let sessions2 := jsoSet st.sessions ck emptySession
    ({ st with sessions := sessions2, sessionsDisk := sessions2 },
     [.savedSessions, .sent .cleared])
  else if text = str "/state" then
    let sg := getSession st.sessions ck
    ({ st with sessions := sg.2 },
     [.sent (.stateReport sg.1.history.length (sg.1.pendingPush.map (·.createdAt)))])
  else if (str "/repo").isPrefixOf text then handleRepoCommand defDef env st text
  else if text = str "/push" ∨ (str "/push ").isPrefixOf text then
    let description := trim ((text.drop 5).dropWhile isWS)
    if description = [] then (st, [.sent .pushUsage])
    else
      let sg := getSession st.sessions ck
      let sessions2 := jsoSet sg.2 ck
        { sg.1 with pendingPush := some { description := description, createdAt := env.ts } }
      ({ st with sessions := sessions2, sessionsDisk := sessions2 },
       [.savedSessions,
        .sent (if isOneTapPushCommand text then .pushStagedKeyboard
               else .pushStagedText description)])
  else if text = str "/cancelpush" then
    let sg := getSession st.sessions ck
    let sessions2 := jsoSet sg.2 ck { sg.1 with pendingPush := none }
    ({ st with sessions := sessions2, sessionsDisk := sessions2 },
     [.savedSessions, .sent .pushCanceled])
  else if (str "/pr").isPrefixOf text then handlePr env st text
  else mainPath env st ck text

/-- The whole text-message handler: Telegram delivers `msg.text`, the
handler trims it and dispatches. -/
def handleText (defDef : RepoDef) (env : Env) (st : BotState) (ck rawText : Str) :
    BotState × List Event :=
  dispatch defDef env st ck (trim rawText)

/-! ## `bot.js` store loading (claim C6)

`loadSessions` (lines 35–61) and `loadRepoAliasStore` (lines 257–272),
as functions of what reading and `JSON.parse`-ing the store file yields.
Re-applying a persisted active alias (lines 273–279) is outside the model:
a corrupt input always leaves `active` null, so that step is inert for the
claim. -/

/-- A parsed JSON value. -/
inductive Json
  | null
  | bool (b : Bool)
  | num (n : Int)
  | jstr (s : Str)
  | arr (xs : List Json)
  | obj (fields : List (Str × Json))

/-- What reading + parsing a store file yields: no file, a read/parse
exception, or a parsed value. -/
inductive LoadInput
  | enoent
  | unreadable
  | parsed (j : Json)

/-- JS truthiness of a parsed JSON value. -/
def truthy : Json → Bool
  | .null => false
  | .bool b => b
  | .num n => !(n == 0)
  | .jstr s => !(s == [])
  | .arr _ => true
  | .obj _ => true

/-- `typeof v === "object"` for a parsed JSON value (arrays and `null`
included; `null` is separately excluded by truthiness where relevant). -/
def isObjectLike : Json → Bool
  | .obj _ => true
  | .arr _ => true
  | .null => true
  | _ => false

/-- The session store shape check (`bot.js` lines 39–41): the root must be
an object, not `null`, not an array. -/
def isPlainObject : Json → Bool
  | .obj _ => true
  | _ => false

/-- JS property read `j[k]` (`undefined` collapsed into `null`; both are
falsy, which is all the loader tests). -/
def jsGet (j : Json) (k : Str) : Json :=
  match j with
  | .obj fs =>
    match jsoLookup fs k with
    | some v => v
    | none => .null
  | _ => .null

/-- The outcome of loading a store: the in-memory value, whether a
timestamped backup of the corrupt file was made, and whether the failure
escaped the loader. -/
structure LoadResult (α : Type) where
  value : α
  backedUp : Bool
  crashed : Bool

/-- `loadSessions()` (`bot.js` lines 35–61): missing file → empty store;
unreadable or wrongly shaped → timestamped backup, then empty store; a
plain object is adopted as-is (kept as raw JSON here, as in the source). -/
def loadSessions : LoadInput → LoadResult Json
  | .enoent => ⟨Json.obj [], false, false⟩
  | .unreadable => ⟨Json.obj [], true, false⟩
  | .parsed j =>
    if isPlainObject j then ⟨j, false, false⟩ else ⟨Json.obj [], true, false⟩

/-- The in-memory `repoAliasStore` as the loader leaves it: the two fields
hold whatever the file held (raw JSON). -/
structure RawAliasStore where
  aliases : Json
  active : Json

/-- `{ aliases: {}, active: null }`. -/
def emptyRawAliasStore : RawAliasStore := ⟨Json.obj [], Json.null⟩

/-- `loadRepoAliasStore()` (`bot.js` lines 257–272): any read/parse error
(`ENOENT` included) is caught and leaves the empty registry — without any
backup; a truthy object-typed value is adopted with `|| {}` / `|| null`
field defaults; any other parsed value silently keeps the initial empty
registry. -/
def loadRepoAliasStore : LoadInput → LoadResult RawAliasStore
  | .enoent => ⟨emptyRawAliasStore, false, false⟩
  | .unreadable => ⟨emptyRawAliasStore, false, false⟩
  | .parsed j =>
    if truthy j && isObjectLike j then
      ⟨⟨if truthy (jsGet j (str "aliases")) then jsGet j (str "aliases") else Json.obj [],
        if truthy (jsGet j (str "active")) then jsGet j (str "active") else Json.null⟩,
       false, false⟩
    else ⟨emptyRawAliasStore, false, false⟩

/-- A corrupt store file in the claim's sense: present but unparseable, or
parsed to something other than a plain object. -/
def CorruptInput : LoadInput → Prop
  | .enoent => False
  | .unreadable => True
  | .parsed j => isPlainObject j = false

/-- The turn that `addHistoryS` stores for the call `c = (role, content,
ts)`: the content is truncated on insert. -/
def mkStoredTurn (cfg : Config) (c : Str × Str × Nat) : Turn :=
  { role := c.1, content := c.2.1.take cfg.resultStoreLimit, ts := c.2.2 }

/-- A concrete configuration (the `src/config.js` defaults) for witnesses
and counterexamples. -/
def testConfig : Config :=
  { targetRepoDir := str "/repo", targetBranch := str "main",
    targetRemote := str "origin", githubToken := [],
    inputsSubdir := str ".codex-inputs", inputsDir := str "/repo/.codex-inputs",
    primaryGitDir := str "/repo/.git", telegramMax := 3900, historyTurns := 8,
    historyStoreLimit := 24, resultStoreLimit := 6000, codexTimeoutMs := 600000 }

/-- A concrete environment for witnesses and counterexamples: every git
command succeeds with empty output, codex exits 0. -/
def testEnv : Env :=
  { ts := 0, ts2 := 1,
    revParseHead1 := ⟨0, str "abc\n", []⟩,
    codexProbe := ⟨1, [], []⟩,
    codex := .exited 0 (str "done") [],
    revParseHead2 := ⟨0, str "abc\n", []⟩,
    revListAhead := ⟨0, str "0\n", []⟩,
    statusPorcelain := ⟨0, [], []⟩,
    push := ⟨0, [], []⟩,
    diffAfter := ⟨0, [], []⟩,
    diffWorking := ⟨0, [], []⟩,
    revListAhead2 := ⟨0, str "0\n", []⟩,
    statusExcl := ⟨0, [], []⟩,
    accessOk := fun _ => true,
    prBranch := ⟨0, str "main\n", []⟩,
    prPush := ⟨0, [], []⟩,
    prHead := ⟨0, str "abc\n", []⟩,
    prDiff := ⟨0, [], []⟩,
    prCreate := .ok (str "pr") }

/-- The statically configured default repository context
(`defaultRepoDef`). -/
def testDefaultRepoDef : RepoDef :=
  { dir := str "/repo", branch := str "main", remote := str "origin" }

/-- An idle bot state holding a staged push for chat `"1"`, for the
handler witnesses. -/
def testStagedState : BotState :=
  { cfg := testConfig, busy := false,
    sessions := [(str "1", { history := [], pendingPush := some ⟨str "fix", 0⟩ })],
    repoAliasStore := ⟨[], none⟩, sessionsDisk := [], aliasDisk := ⟨[], none⟩ }

/-- An environment whose `.git-codex` probe reports 2 commits ahead, for
the C3 witness. -/
def testEnvProbeAhead : Env :=
  { testEnv with codexProbe := ⟨0, str "2\n", []⟩ }

/-- A busy bot state with an empty session store, for the C5
counterexample. -/
def testBusyState : BotState :=
  { cfg := testConfig, busy := true, sessions := [],
    repoAliasStore := ⟨[], none⟩, sessionsDisk := [], aliasDisk := ⟨[], none⟩ }

/-- A configuration with a small history store, for the C8 witness. -/
def smallHistConfig : Config :=
  { testConfig with historyStoreLimit := 2, resultStoreLimit := 3 }

/-- Three concrete `addHistory` calls, for the C8 witness. -/
def histCalls : List (Str × Str × Nat) :=
  [(str "user", str "hello", 0), (str "assistant", str "worlds", 1),
   (str "user", str "x", 2)]

/-- Every character of `w` is whitespace. -/
def AllWS (w : Str) : Prop := ∀ c ∈ w, isWS c = true

/-- `cs` reassembles to `s` when `s` is `cs`'s chunks in order, separated
and surrounded only by whitespace — the claim's "concatenating the chunks
(ignoring boundary whitespace) reproduces the input". -/
inductive ChunksRebuild : List Str → Str → Prop
  | nil (w : Str) : AllWS w → ChunksRebuild [] w
  | cons (w c rest : Str) (cs : List Str) :
      AllWS w → ChunksRebuild cs rest → ChunksRebuild (c :: cs) (w ++ c ++ rest)

/-! ## Whitespace and trim lemmas -/

theorem dropWhile_idem (p : Char → Bool) (l : Str) :
    (l.dropWhile p).dropWhile p = l.dropWhile p := by
  induction l with
  | nil => rfl
  | cons c t ih =>
    by_cases h : p c = true
    · simpa [List.dropWhile_cons, h] using ih
    · simp [List.dropWhile_cons, h]

theorem trimL_trimL (s : Str) : trimL (trimL s) = trimL s := dropWhile_idem _ _

theorem trimR_reverse_eq (s : Str) : trimR s = (trimL s.reverse).reverse := rfl

theorem trimR_trimR (s : Str) : trimR (trimR s) = trimR s := by
  simp only [trimR_reverse_eq, List.reverse_reverse, trimL_trimL]

theorem trimL_length_le (s : Str) : (trimL s).length ≤ s.length :=
  (List.dropWhile_sublist _).length_le

theorem trimR_length_le (s : Str) : (trimR s).length ≤ s.length := by
  simpa [trimR_reverse_eq] using trimL_length_le s.reverse

theorem trim_length_le (s : Str) : (trim s).length ≤ s.length :=
  le_trans (trimR_length_le _) (trimL_length_le _)

theorem allWS_takeWhile (s : Str) : AllWS (s.takeWhile isWS) := fun _ hc =>
  List.mem_takeWhile_imp hc

theorem trimL_decomp (s : Str) : ∃ w, AllWS w ∧ s = w ++ trimL s :=
  ⟨s.takeWhile isWS, allWS_takeWhile s, (List.takeWhile_append_dropWhile isWS s).symm⟩

theorem trimR_decomp (s : Str) : ∃ w, AllWS w ∧ s = trimR s ++ w := by
  refine ⟨(s.reverse.takeWhile isWS).reverse, ?_, ?_⟩
  · intro c hc
    exact allWS_takeWhile s.reverse c (List.mem_reverse.mp hc)
  · rw [trimR_reverse_eq, trimL, ← List.reverse_append,
      List.takeWhile_append_dropWhile, List.reverse_reverse]

theorem trim_decomp (s : Str) : ∃ w₁ w₂, AllWS w₁ ∧ AllWS w₂ ∧ s = w₁ ++ (trim s ++ w₂) := by
  obtain ⟨w₁, hw₁, h₁⟩ := trimL_decomp s
  obtain ⟨w₂, hw₂, h₂⟩ := trimR_decomp (trimL s)
  refine ⟨w₁, w₂, hw₁, hw₂, ?_⟩
  conv_lhs => rw [h₁, h₂]
  rfl

theorem allWS_of_trim_eq_nil {s : Str} (h : trim s = []) : AllWS s := by
  obtain ⟨w₁, w₂, hw₁, hw₂, hs⟩ := trim_decomp s
  rw [h] at hs
  intro c hc
  rw [hs] at hc
  rcases List.mem_append.mp hc with h' | h'
  · exact hw₁ c h'
  · exact hw₂ c (by simpa using h')

theorem trim_ne_nil_of_mem {s : Str} {c : Char} (hc : c ∈ s) (hws : isWS c = false) :
    trim s ≠ [] := fun h => by simp [allWS_of_trim_eq_nil h c hc] at hws

theorem head_not_ws_of_trimL {c : Char} {t : Str} (h : trimL (c :: t) = c :: t) :
    isWS c = false := by
  by_contra hc
  rw [Bool.not_eq_false] at hc
  have hdrop : trimL (c :: t) = trimL t := by simp [trimL, List.dropWhile_cons, hc]
  have := trimL_length_le t
  rw [h] at hdrop
  simp [← hdrop] at this

theorem trimL_eq_self_of_prefix {r d : Str} (h : trimL r = r) (hp : d <+: r) :
    trimL d = d := by
  cases d with
  | nil => rfl
  | cons c t =>
    obtain ⟨rest, hrest⟩ := hp
    subst hrest
    have hc : isWS c = false :=
      head_not_ws_of_trimL (t := t ++ rest) (by simpa using h)
    simp [trimL, List.dropWhile_cons, hc]

theorem trimR_eq_self_iff_reverse {s : Str} : trimR s = s ↔ trimL s.reverse = s.reverse := by
  rw [trimR_reverse_eq]
  constructor
  · intro h
    simpa using congrArg List.reverse h
  · intro h
    rw [h, List.reverse_reverse]

theorem trimR_eq_self_of_suffix {r d : Str} (h : trimR r = r) (hs : d <:+ r) :
    trimR d = d := by
  rw [trimR_eq_self_iff_reverse] at h ⊢
  exact trimL_eq_self_of_prefix h (List.reverse_prefix.mpr hs)

theorem trim_eq_trimR_of_trimL {s : Str} (h : trimL s = s) : trim s = trimR s := by
  rw [trim, h]

theorem trim_eq_trimL_of_trimR {s : Str} (h : trimR s = s) : trim s = trimL s :=
  trimR_eq_self_of_suffix h (List.dropWhile_suffix _)

theorem trim_fixed_parts {s : Str} (h : trim s = s) : trimL s = s ∧ trimR s = s := by
  have h1 : trimL s = s := by
    refine (List.dropWhile_sublist (l := s) isWS).eq_of_length
      (le_antisymm (trimL_length_le s) ?_)
    calc s.length = (trim s).length := by rw [h]
    _ ≤ (trimL s).length := trimR_length_le _
  exact ⟨h1, by rw [← trim_eq_trimR_of_trimL h1, h]⟩

theorem trimR_prefix_self (s : Str) : trimR s <+: s := by
  rw [trimR_reverse_eq]
  conv_rhs => rw [← s.reverse_reverse]
  exact List.reverse_prefix.mpr (List.dropWhile_suffix _)

theorem trim_trim (s : Str) : trim (trim s) = trim s := by
  have h1 : trimL (trim s) = trim s :=
    trimL_eq_self_of_prefix (r := trimL s) (trimL_trimL s) (trimR_prefix_self (trimL s))
  rw [trim_eq_trimR_of_trimL h1]
  show trimR (trimR (trimL s)) = trim s
  rw [trimR_trimR]
  rfl

/-! ## Chunking lemmas (claim C7) -/

theorem lastIndexOf?_le {s pat : Str} {f i : Nat} (h : lastIndexOf? s pat f = some i) :
    i ≤ f := by
  have hm := List.mem_of_find?_eq_some h
  rw [List.mem_reverse, List.mem_range] at hm
  omega

theorem lastIndexOfI_le (s pat : Str) (f : Nat) : lastIndexOfI s pat f ≤ (f : Int) := by
  rw [lastIndexOfI]
  cases h : lastIndexOf? s pat f with
  | none =>
    show (-1 : Int) ≤ (f : Int)
    omega
  | some i =>
    show (i : Int) ≤ (f : Int)
    exact_mod_cast lastIndexOf?_le h

theorem chunkCut_le (r : Str) (m : Nat) : chunkCut r m ≤ m := by
  rw [chunkCut]
  split_ifs with h1 h2 h3 h4 h5 <;> try exact le_refl m
  all_goals
    rw [Int.toNat_le]
    exact lastIndexOfI_le _ _ _

theorem chunkCut_pos (r : Str) (m : Nat) (hm : 1 ≤ m) : 1 ≤ chunkCut r m := by
  rw [chunkCut]
  split_ifs with h1 h2 h3 h4 h5 <;> omega

theorem chunkAux_mem_length_le :
    ∀ fuel (r : Str) (m : Nat), ∀ c ∈ chunkAux fuel r m, c.length ≤ m := by
  intro fuel
  induction fuel with
  | zero => intro r m c hc; simp [chunkAux] at hc
  | succ n ih =>
    intro r m c hc
    rw [chunkAux] at hc
    by_cases hg : r.length > m
    · rw [if_pos hg] at hc
      rcases List.mem_cons.mp hc with h | h
      · subst h
        calc (trim (r.take (chunkCut r m))).length
            ≤ (r.take (chunkCut r m)).length := trim_length_le _
          _ ≤ chunkCut r m := by simp [List.length_take]
          _ ≤ m := chunkCut_le r m
      · exact ih _ _ _ h
    · rw [if_neg hg] at hc
      split at hc
      · rcases List.mem_singleton.mp hc with rfl
        omega
      · simp at hc

theorem head_not_ws_of_trim {r : Str} (htr : trim r = r) (hne0 : r ≠ []) :
    isWS (r.head hne0) = false := by
  cases r with
  | nil => exact absurd rfl hne0
  | cons c t => exact head_not_ws_of_trimL (trim_fixed_parts htr).1

theorem head_mem_take {l : Str} (hne : l ≠ []) {n : Nat} (hn : 0 < n) :
    l.head hne ∈ l.take n := by
  cases l with
  | nil => exact absurd rfl hne
  | cons c t =>
    obtain ⟨k, rfl⟩ := Nat.exists_eq_succ_of_ne_zero (Nat.pos_iff_ne_zero.mp hn)
    simp [List.take_succ_cons]

theorem chunkAux_mem_ne_nil :
    ∀ fuel (r : Str) (m : Nat), trim r = r → 1 ≤ m →
      ∀ c ∈ chunkAux fuel r m, c ≠ [] := by
  intro fuel
  induction fuel with
  | zero => intro r m _ _ c hc; simp [chunkAux] at hc
  | succ n ih =>
    intro r m htr hm c hc
    rw [chunkAux] at hc
    by_cases hg : r.length > m
    · rw [if_pos hg] at hc
      rcases List.mem_cons.mp hc with h | h
      · subst h
        have hrne : r ≠ [] := by intro h0; rw [h0] at hg; simp at hg
        exact trim_ne_nil_of_mem (head_mem_take hrne (chunkCut_pos r m hm))
          (head_not_ws_of_trim htr hrne)
      · exact ih _ _ (trim_trim _) hm _ h
    · rw [if_neg hg] at hc
      rcases eq_or_ne r [] with rfl | hne
      · rw [if_neg (by simp)] at hc
        simp at hc
      · rw [if_pos hne] at hc
        rcases List.mem_singleton.mp hc with rfl
        exact hne

theorem ChunksRebuild.prepend_ws {cs : List Str} {rest w : Str}
    (hw : AllWS w) (h : ChunksRebuild cs rest) : ChunksRebuild cs (w ++ rest) := by
  induction h with
  | nil w2 hw2 =>
    exact ChunksRebuild.nil (w ++ w2) fun c hc =>
      (List.mem_append.mp hc).elim (hw c) (hw2 c)
  | cons w2 c rest2 cs2 hw2 hrest _ =>
    have := ChunksRebuild.cons (w ++ w2) c rest2 cs2
      (fun x hx => (List.mem_append.mp hx).elim (hw x) (hw2 x)) hrest
    simpa [List.append_assoc] using this

theorem ChunksRebuild.append_ws {cs : List Str} {rest w : Str}
    (h : ChunksRebuild cs rest) (hw : AllWS w) : ChunksRebuild cs (rest ++ w) := by
  induction h with
  | nil w2 hw2 =>
    exact ChunksRebuild.nil (w2 ++ w) fun c hc =>
      (List.mem_append.mp hc).elim (hw2 c) (hw c)
  | cons w2 c rest2 cs2 hw2 _ ih =>
    have := ChunksRebuild.cons w2 c (rest2 ++ w) cs2 hw2 ih
    simpa [List.append_assoc] using this

theorem chunkAux_rebuild :
    ∀ fuel (r : Str) (m : Nat), trim r = r → 1 ≤ m → r.length < fuel →
      ChunksRebuild (chunkAux fuel r m) r := by
  intro fuel
  induction fuel with
  | zero => intro r m _ _ hlen; omega
  | succ n ih =>
    intro r m htr hm hlen
    rw [chunkAux]
    by_cases hg : r.length > m
    · rw [if_pos hg]
      set cut := chunkCut r m with hcutdef
      have hcut1 : 1 ≤ cut := chunkCut_pos r m hm
      have hcutm : cut ≤ m := chunkCut_le r m
      -- decompose the head side
      have htakeL : trimL (r.take cut) = r.take cut :=
        trimL_eq_self_of_prefix (trim_fixed_parts htr).1 (List.take_prefix _ _)
      obtain ⟨wa, hwa, hta⟩ := trimR_decomp (r.take cut)
      have hta' : r.take cut = trim (r.take cut) ++ wa := by
        rw [trim_eq_trimR_of_trimL htakeL]; exact hta
      -- decompose the tail side
      have hdropR : trimR (r.drop cut) = r.drop cut :=
        trimR_eq_self_of_suffix (trim_fixed_parts htr).2 (List.drop_suffix _ _)
      obtain ⟨wb, hwb, htb⟩ := trimL_decomp (r.drop cut)
      have htb' : r.drop cut = wb ++ trim (r.drop cut) := by
        rw [trim_eq_trimL_of_trimR hdropR]; exact htb
      -- recursive rebuild
      have hrec : ChunksRebuild (chunkAux n (trim (r.drop cut)) m) (trim (r.drop cut)) := by
        refine ih _ _ (trim_trim _) hm ?_
        have h1 : (trim (r.drop cut)).length ≤ (r.drop cut).length := trim_length_le _
        have h2 : (r.drop cut).length = r.length - cut := List.length_drop _ _
        omega
      have hstep : ChunksRebuild (trim (r.take cut) :: chunkAux n (trim (r.drop cut)) m)
          (trim (r.take cut) ++ (wa ++ (wb ++ trim (r.drop cut)))) := by
        have := ChunksRebuild.cons [] (trim (r.take cut))
          (wa ++ (wb ++ trim (r.drop cut))) (chunkAux n (trim (r.drop cut)) m)
          (by intro c hc; simp at hc)
          ((hrec.prepend_ws hwb).prepend_ws hwa)
        simpa using this
      have hsplit : r = trim (r.take cut) ++ (wa ++ (wb ++ trim (r.drop cut))) := by
        conv_lhs => rw [← List.take_append_drop cut r, hta', htb']
        simp [List.append_assoc]
      rw [← hsplit] at hstep
      exact hstep
    · rw [if_neg hg]
      rcases eq_or_ne r [] with rfl | hne
      · rw [if_neg (by simp)]
        exact ChunksRebuild.nil [] (by intro c hc; simp at hc)
      · rw [if_pos hne]
        have : ChunksRebuild [r] ([] ++ r ++ []) :=
          ChunksRebuild.cons [] r [] [] (by intro c hc; simp at hc)
            (ChunksRebuild.nil [] (by intro c hc; simp at hc))
        simpa using this

theorem chunkTextByParagraph_rebuild (text : Str) (m : Nat) (hm : 1 ≤ m) :
    ChunksRebuild (chunkTextByParagraph text m) text := by
  obtain ⟨w₁, w₂, hw₁, hw₂, hdec⟩ := trim_decomp text
  have h := chunkAux_rebuild ((trim text).length + 1) (trim text) m (trim_trim text) hm
    (Nat.lt_succ_self _)
  have h2 := (h.append_ws hw₂).prepend_ws hw₁
  rw [← hdec] at h2
  exact h2

theorem chunkTextByParagraph_single (text : Str) (m : Nat)
    (hne : trim text ≠ []) (hlen : text.length ≤ m) :
    chunkTextByParagraph text m = [trim text] := by
  rw [chunkTextByParagraph, chunkAux,
    if_neg (by have := trim_length_le text; omega), if_pos hne]

/-! ## Claim C7 -/

/-- C7 (counterexample to the claim as stated): for the empty input and
`maxLen = 1` (so `input.length ≤ maxLen`), `chunkTextByParagraph` returns
the empty sequence, not a single-element sequence. -/
theorem chunk_single_element_counterexample :
    ∃ text : Str, ∃ maxLen : Nat, 1 ≤ maxLen ∧ text.length ≤ maxLen ∧
      (chunkTextByParagraph text maxLen).length ≠ 1 :=
  ⟨[], 1, by decide, by decide, by decide⟩

/-- C7 (amended): for every input and every `maxLen ≥ 1`, `chunk` returns
only chunks of length `≤ maxLen`, no chunk is empty, concatenating the
chunks (ignoring boundary whitespace) reproduces the input, and when the
input contains a non-whitespace character and has length `≤ maxLen` the
result is the single-element sequence holding the trimmed input — while
for whitespace-only input the result is the empty sequence. -/
theorem chunk_spec (text : Str) (maxLen : Nat) (hm : 1 ≤ maxLen) :
    (∀ c ∈ chunkTextByParagraph text maxLen, c.length ≤ maxLen) ∧
    (∀ c ∈ chunkTextByParagraph text maxLen, c ≠ []) ∧
    ChunksRebuild (chunkTextByParagraph text maxLen) text ∧
    (trim text ≠ [] → text.length ≤ maxLen →
      chunkTextByParagraph text maxLen = [trim text]) ∧
    (trim text = [] → chunkTextByParagraph text maxLen = []) :=
  ⟨fun c hc => chunkAux_mem_length_le _ _ _ c hc,
   fun c hc => chunkAux_mem_ne_nil _ _ _ (trim_trim text) hm c hc,
   chunkTextByParagraph_rebuild text maxLen hm,
   fun hne hlen => chunkTextByParagraph_single text maxLen hne hlen,
   fun hws => by rw [chunkTextByParagraph, hws]; simp [chunkAux]⟩

/-- C7 witness: the amended claim evaluated at `"A B"` with `maxLen = 2`. -/
theorem chunk_spec_witness :
    1 ≤ 2 ∧
    ((∀ c ∈ chunkTextByParagraph (str "A B") 2, c.length ≤ 2) ∧
     (∀ c ∈ chunkTextByParagraph (str "A B") 2, c ≠ []) ∧
     ChunksRebuild (chunkTextByParagraph (str "A B") 2) (str "A B") ∧
     (trim (str "A B") ≠ [] → (str "A B").length ≤ 2 →
       chunkTextByParagraph (str "A B") 2 = [trim (str "A B")]) ∧
     (trim (str "A B") = [] → chunkTextByParagraph (str "A B") 2 = [])) :=
  ⟨by decide, chunk_spec (str "A B") 2 (by decide)⟩

/-! ## Sanitizer lemmas (claim C9) -/

theorem takeWhile_append_cons {p : Char → Bool} {a : Str} {c : Char} {b : Str}
    (ha : ∀ x ∈ a, p x = true) (hc : p c = false) :
    (a ++ c :: b).takeWhile p = a := by
  induction a with
  | nil => simp [List.takeWhile_cons, hc]
  | cons x t ih =>
    rw [List.cons_append, List.takeWhile_cons, ha x (List.mem_cons_self _ _),
      ih fun y hy => ha y (List.mem_cons_of_mem _ hy)]
    simp

theorem blankAux_congr :
    ∀ (f g : Nat) (s : Str), s.length < f → s.length < g →
      blankNarrationSegsAux f s = blankNarrationSegsAux g s := by
  intro f
  induction f with
  | zero => intro g s hf hg; omega
  | succ n ih =>
    intro g s hf hg
    cases g with
    | zero => omega
    | succ m =>
      simp only [blankNarrationSegsAux]
      cases hd : s.drop ((s.takeWhile fun c => !isLineTerm c).length) with
      | nil => rfl
      | cons c r =>
        have hr : r.length < s.length := by
          have h2 := congrArg List.length hd
          simp only [List.length_drop, List.length_cons] at h2
          omega
        simp only [ih m r (by omega) (by omega)]

theorem blankNarrationSegs_noterm {a : Str} (ha : ∀ c ∈ a, isLineTerm c = false) :
    blankNarrationSegs a = if matchesNarration a then [] else a := by
  have ht : a.takeWhile (fun c => !isLineTerm c) = a :=
    List.takeWhile_eq_self_iff.mpr (by intro c hc; simp [ha c hc])
  simp only [blankNarrationSegs, blankNarrationSegsAux, ht, List.drop_length,
    List.append_nil]

theorem blankNarrationSegs_append {a b : Str} {c : Char}
    (ha : ∀ x ∈ a, isLineTerm x = false) (hc : isLineTerm c = true) :
    blankNarrationSegs (a ++ c :: b) =
      (if matchesNarration a then [] else a) ++ c :: blankNarrationSegs b := by
  have ht : (a ++ c :: b).takeWhile (fun x => !isLineTerm x) = a :=
    takeWhile_append_cons (by intro x hx; simp [ha x hx]) (by simp [hc])
  have hcong := blankAux_congr ((a ++ c :: b).length) (b.length + 1) b
    (by simp only [List.length_append, List.length_cons]; omega) (by omega)
  simp only [blankNarrationSegs, blankNarrationSegsAux, ht, List.drop_left, hcong]

theorem collapse3Aux_no_nl {g : Str} (h : '\n' ∉ g) (k : Nat) :
    collapse3Aux k g = g := by
  induction g generalizing k with
  | nil => rfl
  | cons c rest ih =>
    have hc : ¬ c = '\n' := fun hc => h (hc ▸ List.mem_cons_self _ _)
    rw [collapse3Aux, if_neg hc, ih (fun hm => h (List.mem_cons_of_mem _ hm))]

theorem collapse3Aux_append_nl {g : Str} (h : '\n' ∉ g) {k : Nat} (hk : k ≤ 1) :
    collapse3Aux k (g ++ ['\n']) = g ++ ['\n'] := by
  induction g generalizing k with
  | nil =>
    rw [List.nil_append, collapse3Aux, if_pos rfl, if_neg (by omega)]
    rfl
  | cons c rest ih =>
    have hc : ¬ c = '\n' := fun hc => h (hc ▸ List.mem_cons_self _ _)
    rw [List.cons_append, collapse3Aux, if_neg hc,
      ih (fun hm => h (List.mem_cons_of_mem _ hm)) (by omega)]

theorem trim_cons_nl {good : Str} (h : trim good = good) : trim ('\n' :: good) = good := by
  have hL : trimL ('\n' :: good) = trimL good := by
    simp [trimL, List.dropWhile_cons, isWS]
  rw [trim, hL, (trim_fixed_parts h).1]
  exact (trim_eq_trimR_of_trimL (trim_fixed_parts h).1).symm.trans h

theorem trim_append_nl {good : Str} (h : trim good = good) : trim (good ++ ['\n']) = good := by
  cases good with
  | nil => decide
  | cons c t =>
    have hparts := trim_fixed_parts h
    have hc : isWS c = false := head_not_ws_of_trimL hparts.1
    have hL : trimL ((c :: t) ++ ['\n']) = (c :: t) ++ ['\n'] := by
      simp [trimL, List.dropWhile_cons, hc]
    rw [trim, hL]
    have hrev : ((c :: t) ++ ['\n']).reverse = '\n' :: (c :: t).reverse := by
      simp
    have hdropR : (c :: t).reverse.dropWhile isWS = (c :: t).reverse := by
      have := hparts.2
      rw [trimR] at this
      have h2 := congrArg List.reverse this
      simpa using h2
    rw [trimR, hrev, List.dropWhile_cons, if_pos (by decide : isWS '\n' = true), hdropR]
    simp

/-! ## Claim C9 -/

/-- C9: for a text made of one line matching a disallowed push-narration
pattern and one legitimate line (in either order, joined by a newline;
a line contains no ECMAScript line terminator, the boundary the `m`-flag
patterns anchor at), `sanitizePushNarration` returns exactly the
legitimate line. Since the hypotheses say the legitimate line contains no
line terminator and is its own trim, the returned text in particular
contains no run of 3+ blank lines and no leading or trailing
whitespace. -/
theorem sanitize_interleaved (bad good : Str)
    (hbt : ∀ c ∈ bad, isLineTerm c = false)
    (hgt : ∀ c ∈ good, isLineTerm c = false)
    (hbad : matchesNarration bad = true)
    (hgood : matchesNarration good = false)
    (hgtrim : trim good = good) :
    sanitizePushNarration (bad ++ '\n' :: good) = good ∧
    sanitizePushNarration (good ++ '\n' :: bad) = good := by
  have hgnl : '\n' ∉ good := fun hm => by
    have := hgt _ hm
    simp [isLineTerm] at this
  constructor
  · rw [sanitizePushNarration, blankNarrationSegs_append hbt (by decide), if_pos hbad,
      blankNarrationSegs_noterm hgt, if_neg (by simp [hgood]), List.nil_append,
      collapse3Aux, if_pos rfl, if_neg (by omega), collapse3Aux_no_nl hgnl,
      trim_cons_nl hgtrim]
  · rw [sanitizePushNarration, blankNarrationSegs_append hgt (by decide),
      if_neg (by simp [hgood]), blankNarrationSegs_noterm hbt, if_pos hbad,
      collapse3Aux_append_nl hgnl (by omega), trim_append_nl hgtrim]

/-- The `m`-flag patterns of the source also blank terminator-free
segments around `'\r'` individually: on `"x\rplease push y"` joined with a
legitimate line, only the matching segment is removed and the `"x\r"` part
survives into the output. -/
theorem sanitize_keeps_cr_segments :
    sanitizePushNarration
        (str "x" ++ '\r' :: str "please push y" ++ '\n' :: str "Changes done.") =
      str "x" ++ '\r' :: '\n' :: str "Changes done." := by
  decide

/-- C9 witness: the theorem evaluated on the narration line
`"I cannot run git push here."` interleaved with the legitimate line
`"Changes done."`. -/
theorem sanitize_interleaved_witness :
    sanitizePushNarration
        (str "I cannot run git push here." ++ '\n' :: str "Changes done.") =
      str "Changes done." ∧
    sanitizePushNarration
        (str "Changes done." ++ '\n' :: str "I cannot run git push here.") =
      str "Changes done." :=
  sanitize_interleaved (str "I cannot run git push here.") (str "Changes done.")
    (by decide) (by decide) (by decide) (by decide) (by decide)

/-! ## Claim C4 -/

/-- C4 (counterexample to the claim as stated): exit code 1 with stdout
`"boom"` and empty stderr rejects with the fixed message
`"codex exited with code 1"`, not with the captured stdout. -/
theorem runCodex_stderr_fallback_counterexample :
    runCodexE testConfig (.exited 1 (str "boom") []) =
      .error (str "codex exited with code 1") ∧
    str "codex exited with code 1" ≠ str "boom" := by
  constructor
  · rfl
  · decide

/-- C4 (amended): a task that terminates with a nonzero exit code (without
timing out) rejects with the captured stderr, and when stderr is empty the
error carries the fixed message `"codex exited with code N"` (not the
captured stdout); exit code 0 resolves with the captured stdout, or the
placeholder `"(no output)"` when stdout is empty. -/
theorem runCodex_exit_spec (cfg : Config) (code : Nat) (out err : Str) :
    (code ≠ 0 → err ≠ [] → runCodexE cfg (.exited code out err) = .error err) ∧
    (code ≠ 0 → err = [] →
      runCodexE cfg (.exited code out err) =
        .error (str "codex exited with code " ++ natStr code)) ∧
    (out ≠ [] → runCodexE cfg (.exited 0 out err) = .ok out) ∧
    (out = [] → runCodexE cfg (.exited 0 out err) = .ok (str "(no output)")) := by
  refine ⟨fun h1 h2 => ?_, fun h1 h2 => ?_, fun h1 => ?_, fun h1 => ?_⟩
  · simp [runCodexE, runCodexClose, h1, h2]
  · simp [runCodexE, runCodexClose, h1, h2]
  · simp [runCodexE, runCodexClose, h1]
  · simp [runCodexE, runCodexClose, h1]

/-- C4 witness: the amended claim evaluated at exit code 2 and exit code
0 with concrete outputs. -/
theorem runCodex_exit_spec_witness :
    runCodexE testConfig (.exited 2 (str "o") (str "e")) = .error (str "e") ∧
    runCodexE testConfig (.exited 2 (str "o") []) =
      .error (str "codex exited with code 2") ∧
    runCodexE testConfig (.exited 0 (str "o") []) = .ok (str "o") :=
  ⟨(runCodex_exit_spec testConfig 2 (str "o") (str "e")).1 (by decide) (by decide),
   (runCodex_exit_spec testConfig 2 (str "o") []).2.1 (by decide) rfl,
   (runCodex_exit_spec testConfig 0 (str "o") []).2.2.1 (by decide)⟩

/-! ## Claim C6 -/

/-- C6 (counterexample to the claim as stated): on an unreadable store
file, `loadRepoAliasStore` makes no backup, while `loadSessions` — whose
recovery the claim says the alias store shares — does. -/
theorem alias_store_backup_counterexample :
    CorruptInput .unreadable ∧
    (loadRepoAliasStore .unreadable).backedUp = false ∧
    (loadSessions .unreadable).backedUp = true :=
  ⟨trivial, rfl, rfl⟩

/-- C6 (amended): loading a corrupt (unparseable or wrongly shaped)
repo-alias store continues with the empty registry and never propagates
the failure as a crash — but, unlike the session store, it does not back
up the corrupt file. -/
theorem loadRepoAliasStore_corrupt_recovery (i : LoadInput) (h : CorruptInput i) :
    (loadRepoAliasStore i).value.aliases = Json.obj [] ∧
    (loadRepoAliasStore i).value.active = Json.null ∧
    (loadRepoAliasStore i).crashed = false ∧
    (loadRepoAliasStore i).backedUp = false := by
  cases i with
  | enoent => exact absurd h (by simp [CorruptInput])
  | unreadable => exact ⟨rfl, rfl, rfl, rfl⟩
  | parsed j =>
    have hj : isPlainObject j = false := h
    cases j <;>
      simp_all [loadRepoAliasStore, isPlainObject, truthy, isObjectLike, jsGet,
        emptyRawAliasStore]

/-- C6 witness: the amended claim evaluated at the unreadable-file input. -/
theorem loadRepoAliasStore_corrupt_recovery_witness :
    CorruptInput .unreadable ∧
    ((loadRepoAliasStore .unreadable).value.aliases = Json.obj [] ∧
     (loadRepoAliasStore .unreadable).value.active = Json.null ∧
     (loadRepoAliasStore .unreadable).crashed = false ∧
     (loadRepoAliasStore .unreadable).backedUp = false) :=
  ⟨trivial, loadRepoAliasStore_corrupt_recovery .unreadable trivial⟩

/-! ## History store lemmas (claim C8) -/

theorem addHistoryS_step (cfg : Config) (hH : 1 ≤ cfg.historyStoreLimit)
    (s : Session) (done : List Turn) (c : Str × Str × Nat)
    (hsuf : s.history <:+ done)
    (hlen : s.history.length = min done.length cfg.historyStoreLimit)
    (hbound : ∀ t ∈ s.history, t.content.length ≤ cfg.resultStoreLimit) :
    (addHistoryS cfg s c.1 c.2.1 c.2.2).history <:+ (done ++ [mkStoredTurn cfg c]) ∧
    (addHistoryS cfg s c.1 c.2.1 c.2.2).history.length =
      min (done.length + 1) cfg.historyStoreLimit ∧
    (∀ t ∈ (addHistoryS cfg s c.1 c.2.1 c.2.2).history,
      t.content.length ≤ cfg.resultStoreLimit) := by
  have happ : s.history ++ [mkStoredTurn cfg c] <:+ done ++ [mkStoredTurn cfg c] := by
    obtain ⟨p, hp⟩ := hsuf
    exact ⟨p, by rw [← hp, List.append_assoc]⟩
  have hboundh : ∀ t ∈ s.history ++ [mkStoredTurn cfg c],
      t.content.length ≤ cfg.resultStoreLimit := by
    intro t ht
    rcases List.mem_append.mp ht with h | h
    · exact hbound t h
    · rcases List.mem_singleton.mp h with rfl
      simp [mkStoredTurn]
  rw [addHistoryS]
  simp only [mkStoredTurn] at happ hboundh ⊢
  split
  · next hgt =>
    simp only [List.length_append, List.length_cons, List.length_nil] at hgt
    rw [sliceNeg, if_neg (by omega)]
    refine ⟨(List.drop_suffix _ _).trans happ, ?_, ?_⟩
    · simp only [List.length_drop, List.length_append, List.length_cons, List.length_nil]
      omega
    · intro t ht
      exact hboundh t (List.drop_subset _ _ ht)
  · next hle =>
    simp only [List.length_append, List.length_cons, List.length_nil] at hle
    refine ⟨happ, ?_, hboundh⟩
    simp only [List.length_append, List.length_cons, List.length_nil]
    omega

theorem addHistory_fold_aux (cfg : Config) (hH : 1 ≤ cfg.historyStoreLimit) :
    ∀ (calls : List (Str × Str × Nat)) (s : Session) (done : List Turn),
      s.history <:+ done →
      s.history.length = min done.length cfg.historyStoreLimit →
      (∀ t ∈ s.history, t.content.length ≤ cfg.resultStoreLimit) →
      ((calls.foldl (fun acc c => addHistoryS cfg acc c.1 c.2.1 c.2.2) s).history <:+
        done ++ calls.map (mkStoredTurn cfg)) ∧
      ((calls.foldl (fun acc c => addHistoryS cfg acc c.1 c.2.1 c.2.2) s).history.length =
        min (done.length + calls.length) cfg.historyStoreLimit) ∧
      (∀ t ∈ (calls.foldl (fun acc c => addHistoryS cfg acc c.1 c.2.1 c.2.2) s).history,
        t.content.length ≤ cfg.resultStoreLimit) := by
  intro calls
  induction calls with
  | nil =>
    intro s done h1 h2 h3
    exact ⟨by simpa using h1, by simpa using h2, h3⟩
  | cons c rest ih =>
    intro s done h1 h2 h3
    obtain ⟨g1, g2, g3⟩ := addHistoryS_step cfg hH s done c h1 h2 h3
    obtain ⟨a1, a2, a3⟩ := ih (addHistoryS cfg s c.1 c.2.1 c.2.2)
      (done ++ [mkStoredTurn cfg c]) g1 (by simpa using g2) g3
    refine ⟨?_, ?_, a3⟩
    · simpa [List.append_assoc] using a1
    · have harith : (done ++ [mkStoredTurn cfg c]).length + rest.length =
          done.length + (c :: rest).length := by
        simp only [List.length_append, List.length_cons, List.length_nil]
        omega
      rw [← harith]
      exact a2

/-! ## Claim C8 -/

/-- C8: after any sequence of `addHistory` calls starting from the empty
session, the history is a suffix of the truncated-on-insert turn sequence
(so the surviving entries are the most recent ones in order, oldest
evicted first), its length is `min (number of calls) H_max`, and every
stored content has length `≤ C_max`. -/
theorem addHistory_invariant (cfg : Config) (hH : 1 ≤ cfg.historyStoreLimit)
    (calls : List (Str × Str × Nat)) :
    ((calls.foldl (fun acc c => addHistoryS cfg acc c.1 c.2.1 c.2.2)
        emptySession).history <:+ calls.map (mkStoredTurn cfg)) ∧
    ((calls.foldl (fun acc c => addHistoryS cfg acc c.1 c.2.1 c.2.2)
        emptySession).history.length = min calls.length cfg.historyStoreLimit) ∧
    (∀ t ∈ (calls.foldl (fun acc c => addHistoryS cfg acc c.1 c.2.1 c.2.2)
        emptySession).history, t.content.length ≤ cfg.resultStoreLimit) := by
  have := addHistory_fold_aux cfg hH calls emptySession []
    (by simp [emptySession]) (by simp [emptySession]) (by simp [emptySession])
  simpa using this

/-- C8 witness: three insertions with `H_max = 2`, `C_max = 3` — only the
two most recent (truncated) turns survive. -/
theorem addHistory_invariant_witness :
    1 ≤ smallHistConfig.historyStoreLimit ∧
    ((histCalls.foldl (fun acc c => addHistoryS smallHistConfig acc c.1 c.2.1 c.2.2)
        emptySession).history <:+ histCalls.map (mkStoredTurn smallHistConfig)) ∧
    (histCalls.foldl (fun acc c => addHistoryS smallHistConfig acc c.1 c.2.1 c.2.2)
        emptySession).history.length =
      min histCalls.length smallHistConfig.historyStoreLimit :=
  ⟨by decide,
   (addHistory_invariant smallHistConfig (by decide) histCalls).1,
   (addHistory_invariant smallHistConfig (by decide) histCalls).2.1⟩

/-! ## Store lemmas for the handler claims -/

theorem jsoLookup_cons_pos {α : Type} {q : Str × α} {t : List (Str × α)} {k : Str}
    (h : (q.1 == k) = true) : jsoLookup (q :: t) k = some q.2 := by
  rw [jsoLookup,
    List.find?_cons_of_pos (p := fun x => x.1 == k) t h]
  rfl

theorem jsoLookup_cons_neg {α : Type} {q : Str × α} {t : List (Str × α)} {k : Str}
    (h : (q.1 == k) = false) : jsoLookup (q :: t) k = jsoLookup t k := by
  rw [jsoLookup,
    List.find?_cons_of_neg (p := fun x => x.1 == k) t (by simp [h])]
  rfl

theorem jsoLookup_map_set {α : Type} {m : List (Str × α)} {k : Str} {v : α}
    (h : m.any (fun p => p.1 == k) = true) :
    jsoLookup (m.map fun p => if p.1 == k then (k, v) else p) k = some v := by
  induction m with
  | nil => simp at h
  | cons p t ih =>
    by_cases hp : (p.1 == k) = true
    · rw [List.map_cons, if_pos hp,
        jsoLookup_cons_pos (q := (k, v)) (by simp)]
    · rw [List.map_cons, if_neg (by simp [hp]),
        jsoLookup_cons_neg (Bool.not_eq_true _ ▸ hp)]
      have ht : t.any (fun p => p.1 == k) = true := by
        simp only [List.any_cons, hp, Bool.false_or] at h
        exact h
      exact ih ht

theorem jsoLookup_append_set {α : Type} {m : List (Str × α)} {k : Str} {v : α}
    (h : m.any (fun p => p.1 == k) = false) :
    jsoLookup (m ++ [(k, v)]) k = some v := by
  induction m with
  | nil =>
    rw [List.nil_append, jsoLookup_cons_pos (by simp)]
  | cons p t ih =>
    simp only [List.any_cons, Bool.or_eq_false_iff] at h
    rw [List.cons_append, jsoLookup_cons_neg h.1]
    exact ih h.2

theorem jsoLookup_jsoSet_self {α : Type} (m : List (Str × α)) (k : Str) (v : α) :
    jsoLookup (jsoSet m k v) k = some v := by
  rw [jsoSet]
  by_cases h : m.any (fun p => p.1 == k) = true
  · rw [if_pos h]
    exact jsoLookup_map_set h
  · rw [if_neg h]
    exact jsoLookup_append_set (Bool.not_eq_true _ ▸ h)

theorem getSession_of_lookup {m : SessionMap} {k : Str} {s : Session}
    (h : jsoLookup m k = some s) : getSession m k = (s, m) := by
  simp [getSession, h]

theorem jsoLookup_addHistory (cfg : Config) {m : SessionMap} {k : Str} {s : Session}
    (h : jsoLookup m k = some s) (role content : Str) (ts : Nat) :
    jsoLookup (addHistory cfg m k role content ts) k =
      some (addHistoryS cfg s role content ts) := by
  rw [addHistory, getSession_of_lookup h]
  exact jsoLookup_jsoSet_self m k _

theorem addHistoryS_pendingPush (cfg : Config) (s : Session) (role content : Str) (ts : Nat) :
    (addHistoryS cfg s role content ts).pendingPush = s.pendingPush := rfl

theorem jsoLookup_clearPending {m : SessionMap} {k : Str} {s : Session}
    (h : jsoLookup m k = some s) :
    jsoLookup (clearPending m k) k = some { s with pendingPush := none } := by
  rw [clearPending, h]
  exact jsoLookup_jsoSet_self m k _

/-! ## Dispatch lemmas for the handler claims -/

theorem isPrefixOf_trans {a b t : Str} (h1 : a.isPrefixOf b = true)
    (h2 : b.isPrefixOf t = true) : a.isPrefixOf t = true :=
  List.isPrefixOf_iff_prefix.mpr
    ((List.isPrefixOf_iff_prefix.mp h1).trans (List.isPrefixOf_iff_prefix.mp h2))

theorem dispatch_confirmpush (dd : RepoDef) (env : Env) (st : BotState) (ck : Str) :
    dispatch dd env st ck (str "/confirmpush") = mainPath env st ck (str "/confirmpush") := rfl

theorem dispatch_plain (dd : RepoDef) (env : Env) (st : BotState) (ck text : Str)
    (hne : text ≠ [])
    (hplain : (str "/").isPrefixOf text = false) :
    dispatch dd env st ck text = mainPath env st ck text := by
  have hofs : ∀ s : Str, (str "/").isPrefixOf s = true → text ≠ s := by
    intro s hs he
    rw [he, hs] at hplain
    exact Bool.true_eq_false.mp hplain
  have hofp : ∀ s : Str, (str "/").isPrefixOf s = true → s.isPrefixOf text = false := by
    intro s hs
    by_contra hb
    rw [Bool.not_eq_false] at hb
    rw [isPrefixOf_trans hs hb] at hplain
    exact Bool.true_eq_false.mp hplain
  rw [dispatch, if_neg hne,
    if_neg (hofs _ (by decide)),
    if_neg (by
      rintro (h | h)
      · exact hofs (str "/new") (by decide) h
      · exact hofs (str "/clear") (by decide) h),
    if_neg (hofs _ (by decide)),
    if_neg (by simp [hofp (str "/repo") (by decide)]),
    if_neg (by
      rintro (h | h)
      · exact hofs (str "/push") (by decide) h
      · exact absurd h (by simp [hofp (str "/push ") (by decide)])),
    if_neg (hofs _ (by decide)),
    if_neg (by simp [hofp (str "/pr") (by decide)])]

theorem mainPath_busy_plain (env : Env) (st : BotState) (ck text : Str)
    (hbusy : st.busy = true)
    (hncp : text ≠ str "/confirmpush") :
    mainPath env st ck text =
      ({ st with sessions := (getSession st.sessions ck).2 }, [.sent .busyMsg]) := by
  rw [mainPath]
  simp only [beq_eq_false_iff_ne.mpr hncp, Bool.false_and, Bool.false_eq_true, if_false,
    hbusy, if_true]

theorem mainPath_busy_confirm (env : Env) (st : BotState) (ck : Str) {s : Session}
    {p : PendingPush}
    (hbusy : st.busy = true)
    (hlk : jsoLookup st.sessions ck = some s)
    (hpp : s.pendingPush = some p) :
    mainPath env st ck (str "/confirmpush") =
      ({ st with sessions := st.sessions }, [.sent .busyMsg]) := by
  rw [mainPath]
  simp only [getSession_of_lookup hlk, hpp]
  simp only [beq_self_eq_true, Option.isSome_some, Bool.and_true, Option.isNone_some,
    Bool.and_false, Bool.false_eq_true, if_false, hbusy, if_true]

theorem isPrefixOf_false_of_isPrefixOf {a b t : Str}
    (hb : b.isPrefixOf t = true)
    (hab : a.isPrefixOf b = false) (hba : b.isPrefixOf a = false) :
    a.isPrefixOf t = false := by
  by_contra h
  rw [Bool.not_eq_false] at h
  rcases List.prefix_or_prefix_of_prefix (List.isPrefixOf_iff_prefix.mp h)
      (List.isPrefixOf_iff_prefix.mp hb) with h2 | h2
  · rw [List.isPrefixOf_iff_prefix.mpr h2] at hab
    exact Bool.true_eq_false.mp hab
  · rw [List.isPrefixOf_iff_prefix.mpr h2] at hba
    exact Bool.true_eq_false.mp hba

theorem dispatch_push (dd : RepoDef) (env : Env) (st : BotState) (ck text : Str)
    (hpre : (str "/push ").isPrefixOf text = true)
    (hdesc : trim ((text.drop 5).dropWhile isWS) ≠ []) :
    dispatch dd env st ck text =
      ({ st with
          sessions := jsoSet (getSession st.sessions ck).2 ck
            { (getSession st.sessions ck).1 with
              pendingPush := some ⟨trim ((text.drop 5).dropWhile isWS), env.ts⟩ },
          sessionsDisk := jsoSet (getSession st.sessions ck).2 ck
            { (getSession st.sessions ck).1 with
              pendingPush := some ⟨trim ((text.drop 5).dropWhile isWS), env.ts⟩ } },
       [.savedSessions,
        .sent (if isOneTapPushCommand text then .pushStagedKeyboard
               else .pushStagedText (trim ((text.drop 5).dropWhile isWS)))]) := by
  have hne : text ≠ [] := by
    obtain ⟨r, hr⟩ := List.isPrefixOf_iff_prefix.mp hpre
    rw [← hr]
    simp [str]
  have heq : ∀ s : Str, (str "/push ").isPrefixOf s = false → text ≠ s := by
    intro s hs he
    rw [he, hs] at hpre
    exact Bool.false_eq_true.mp hpre
  rw [dispatch, if_neg hne,
    if_neg (heq _ (by decide)),
    if_neg (by
      rintro (h | h)
      · exact heq (str "/new") (by decide) h
      · exact heq (str "/clear") (by decide) h),
    if_neg (heq _ (by decide)),
    if_neg (by
      simp [isPrefixOf_false_of_isPrefixOf hpre
        (by decide : (str "/repo").isPrefixOf (str "/push ") = false)
        (by decide : (str "/push ").isPrefixOf (str "/repo") = false)]),
    if_pos (Or.inr hpre), if_neg hdesc]

/-! ## Claim C5 -/

/-- C5 (counterexample to the claim as stated): with the gate held and an
empty session store, a plain request (`"hello"` from chat `"1"`) is
rejected with the busy message, yet the session store mapping is no longer
identical: the handler's `getSession` call, which runs before the busy
check, has lazily created an empty session record. -/
theorem busy_reject_counterexample :
    (handleText testDefaultRepoDef testEnv testBusyState (str "1") (str "hello")).2 =
      [.sent .busyMsg] ∧
    (handleText testDefaultRepoDef testEnv testBusyState (str "1") (str "hello")).1.sessions =
      [(str "1", emptySession)] ∧
    [(str "1", emptySession)] ≠ testBusyState.sessions := by
  refine ⟨rfl, rfl, by simp [testBusyState]⟩

/-- C5 (amended): when the gate is held, a task-executing command (a plain
request, or `/confirmpush` with a staged push) is rejected with the busy
message; the alias registry, both persisted stores, and the busy flag are
unchanged, no existing session entry is modified, and the only possible
mutation of the in-memory session mapping is the lazy creation of an empty
session record for the requesting chat (never persisted). -/
theorem busy_reject_frame (dd : RepoDef) (env : Env) (st : BotState) (ck rawText : Str)
    (hbusy : st.busy = true)
    (hcmd : (trim rawText ≠ [] ∧ (str "/").isPrefixOf (trim rawText) = false) ∨
            (trim rawText = str "/confirmpush" ∧
             ∃ s p, jsoLookup st.sessions ck = some s ∧ s.pendingPush = some p)) :
    (handleText dd env st ck rawText).2 = [.sent .busyMsg] ∧
    (handleText dd env st ck rawText).1.repoAliasStore = st.repoAliasStore ∧
    (handleText dd env st ck rawText).1.aliasDisk = st.aliasDisk ∧
    (handleText dd env st ck rawText).1.sessionsDisk = st.sessionsDisk ∧
    (handleText dd env st ck rawText).1.busy = st.busy ∧
    ((handleText dd env st ck rawText).1.sessions = st.sessions ∨
      (handleText dd env st ck rawText).1.sessions = st.sessions ++ [(ck, emptySession)]) ∧
    (∀ s, jsoLookup st.sessions ck = some s →
      (handleText dd env st ck rawText).1.sessions = st.sessions) := by
  rcases hcmd with ⟨hne, hpl⟩ | ⟨hcp, s, p, hlk, hpp⟩
  · have hncp : trim rawText ≠ str "/confirmpush" := by
      intro he
      rw [he] at hpl
      exact absurd hpl (by decide)
    rw [handleText, dispatch_plain dd env st ck _ hne hpl,
      mainPath_busy_plain env st ck _ hbusy hncp]
    refine ⟨rfl, rfl, rfl, rfl, rfl, ?_, ?_⟩
    · cases hl : jsoLookup st.sessions ck with
      | some s0 => exact Or.inl (by simp [getSession, hl])
      | none => exact Or.inr (by simp [getSession, hl])
    · intro s0 hl
      simp [getSession, hl]
  · rw [handleText, hcp, dispatch_confirmpush,
      mainPath_busy_confirm env st ck hbusy hlk hpp]
    exact ⟨rfl, rfl, rfl, rfl, rfl, Or.inl rfl, fun _ _ => rfl⟩

/-- C5 witness: the amended claim at a busy state holding a staged push
for chat `"1"`, for both a plain request and `/confirmpush`. -/
theorem busy_reject_frame_witness :
    ((handleText testDefaultRepoDef testEnv
        { testBusyState with
          sessions := [(str "1", { history := [], pendingPush := some ⟨str "fix", 0⟩ })] }
        (str "1") (str "hello")).2 = [.sent .busyMsg]) ∧
    ((handleText testDefaultRepoDef testEnv
        { testBusyState with
          sessions := [(str "1", { history := [], pendingPush := some ⟨str "fix", 0⟩ })] }
        (str "1") (str "/confirmpush")).2 = [.sent .busyMsg]) :=
  ⟨(busy_reject_frame testDefaultRepoDef testEnv
      { testBusyState with
        sessions := [(str "1", { history := [], pendingPush := some ⟨str "fix", 0⟩ })] }
      (str "1") (str "hello") rfl (Or.inl (by constructor <;> decide))).1,
   (busy_reject_frame testDefaultRepoDef testEnv
      { testBusyState with
        sessions := [(str "1", { history := [], pendingPush := some ⟨str "fix", 0⟩ })] }
      (str "1") (str "/confirmpush") rfl
      (Or.inr ⟨by decide, _, _, rfl, rfl⟩)).1⟩

/-! ## Claim C10 -/

/-- C10: even while the gate is held, `/push` with a non-empty description
sets the session's `pendingPush` and persists the session store, and
`/cancelpush` clears it and persists — these staging branches run before
the busy check, so session state is mutated and written to disk while a
task is in flight (the busy flag itself is untouched). -/
theorem staging_ignores_busy (dd : RepoDef) (env : Env) (st : BotState) (ck rawText : Str)
    (hbusy : st.busy = true)
    (htr : trim rawText = rawText)
    (hpre : (str "/push ").isPrefixOf rawText = true)
    (hdesc : trim ((rawText.drop 5).dropWhile isWS) ≠ []) :
    ((jsoLookup (handleText dd env st ck rawText).1.sessions ck).map
        (fun s => s.pendingPush.map (·.description)) =
      some (some (trim ((rawText.drop 5).dropWhile isWS))) ∧
     (handleText dd env st ck rawText).1.sessionsDisk =
       (handleText dd env st ck rawText).1.sessions ∧
     Event.savedSessions ∈ (handleText dd env st ck rawText).2 ∧
     (handleText dd env st ck rawText).1.busy = true) ∧
    ((jsoLookup (handleText dd env st ck (str "/cancelpush")).1.sessions ck).map
        (fun s => s.pendingPush) = some none ∧
     (handleText dd env st ck (str "/cancelpush")).1.sessionsDisk =
       (handleText dd env st ck (str "/cancelpush")).1.sessions ∧
     Event.savedSessions ∈ (handleText dd env st ck (str "/cancelpush")).2 ∧
     (handleText dd env st ck (str "/cancelpush")).1.busy = true) := by
  constructor
  · rw [handleText, htr, dispatch_push dd env st ck rawText hpre hdesc]
    refine ⟨?_, rfl, by simp, hbusy⟩
    rw [jsoLookup_jsoSet_self]
    rfl
  · have hcd : dispatch dd env st ck (str "/cancelpush") =
        ({ st with
            sessions := jsoSet (getSession st.sessions ck).2 ck
              { (getSession st.sessions ck).1 with pendingPush := none },
            sessionsDisk := jsoSet (getSession st.sessions ck).2 ck
              { (getSession st.sessions ck).1 with pendingPush := none } },
         [.savedSessions, .sent .pushCanceled]) := rfl
    rw [handleText, (by decide : trim (str "/cancelpush") = str "/cancelpush"), hcd]
    refine ⟨?_, rfl, by simp, hbusy⟩
    rw [jsoLookup_jsoSet_self]
    rfl

/-- C10 witness: `/push fix stuff` and `/cancelpush` from chat `"1"` while
busy. -/
theorem staging_ignores_busy_witness :
    (jsoLookup (handleText testDefaultRepoDef testEnv testBusyState
        (str "1") (str "/push fix stuff")).1.sessions (str "1")).map
        (fun s => s.pendingPush.map (·.description)) =
      some (some (trim (((str "/push fix stuff").drop 5).dropWhile isWS))) ∧
    (jsoLookup (handleText testDefaultRepoDef testEnv testBusyState
        (str "1") (str "/cancelpush")).1.sessions (str "1")).map
        (fun s => s.pendingPush) = some none :=
  ⟨((staging_ignores_busy testDefaultRepoDef testEnv testBusyState (str "1")
      (str "/push fix stuff") rfl (by decide) (by decide) (by decide)).1).1,
   ((staging_ignores_busy testDefaultRepoDef testEnv testBusyState (str "1")
      (str "/push fix stuff") rfl (by decide) (by decide) (by decide)).2).1⟩

/-! ## Confirmed-push lemmas (claims C1–C3) -/

theorem tryBody_push_pending (env : Env) (cfg : Config) (ck u hb : Str)
    (sessions1 : SessionMap) (s : Session) (hlk : jsoLookup sessions1 ck = some s) :
    match tryBody env cfg true ck u hb sessions1 with
    | .ok (m, ev) =>
      (jsoLookup m ck).map (·.pendingPush) = some none ∧
        ev.count Event.clearedPendingPush = 1
    | .error (m, ev, _) =>
      (jsoLookup m ck).map (·.pendingPush) = some s.pendingPush ∧
        ev.count Event.clearedPendingPush = 0 := by
  have h2 := jsoLookup_addHistory cfg hlk (str "user") (historyUserText true u) env.ts
  cases hc : runCodexE cfg env.codex with
  | error e =>
    simp only [tryBody, hc]
    exact ⟨by simp [h2, addHistoryS_pendingPush], rfl⟩
  | ok resultRaw =>
    have h3 := jsoLookup_addHistory cfg
      (m := addHistory cfg sessions1 ck (str "user") (historyUserText true u) env.ts) h2
      (str "assistant") (sanitizePushNarration resultRaw) env.ts2
    cases hh2 : getHeadCommitE env.revParseHead2 with
    | error e =>
      simp only [tryBody, hc, hh2, if_true]
      exact ⟨by simp [h3, addHistoryS_pendingPush], rfl⟩
    | ok headAfter =>
      by_cases hskip : (headAfter = hb ∧ getAheadCount env.revListAhead = 0)
      · simp only [tryBody, hc, hh2, if_true, if_pos hskip]
        refine ⟨?_, rfl⟩
        rw [jsoLookup_clearPending h3]
        rfl
      · by_cases hpc : env.push.code ≠ 0
        · simp only [tryBody, hc, hh2, if_true, if_neg hskip, if_pos hpc]
          exact ⟨by simp [h3, addHistoryS_pendingPush], rfl⟩
        · simp only [tryBody, hc, hh2, if_true, if_neg hskip, if_neg hpc]
          refine ⟨?_, rfl⟩
          rw [jsoLookup_clearPending h3]
          rfl

theorem tryFull_push_pending (env : Env) (cfg : Config) (ck u : Str)
    (sessions1 : SessionMap) (s : Session) (hlk : jsoLookup sessions1 ck = some s) :
    match tryFull env cfg true ck u sessions1 with
    | .ok (m, ev) =>
      (jsoLookup m ck).map (·.pendingPush) = some none ∧
        ev.count Event.clearedPendingPush = 1
    | .error (m, ev, _) =>
      (jsoLookup m ck).map (·.pendingPush) = some s.pendingPush ∧
        ev.count Event.clearedPendingPush = 0 := by
  cases hh : getHeadCommitE env.revParseHead1 with
  | error e =>
    simp only [tryFull, hh, if_true]
    exact ⟨by simp [hlk], rfl⟩
  | ok hb =>
    by_cases hp : codexProbeAheadPositive env = true
    · simp only [tryFull, hh, if_true, if_pos hp]
      exact ⟨by simp [hlk], rfl⟩
    · simp only [tryFull, hh, if_true, if_neg hp]
      exact tryBody_push_pending env cfg ck u hb sessions1 s hlk

theorem mainPath_confirm_run (env : Env) (st : BotState) (ck : Str) {s : Session}
    {p : PendingPush}
    (hbusy : st.busy = false)
    (hlk : jsoLookup st.sessions ck = some s)
    (hpp : s.pendingPush = some p) :
    mainPath env st ck (str "/confirmpush") =
      (match tryFull env st.cfg true ck p.description st.sessions with
       | .ok (sessions2, ev) =>
         ({ st with busy := false, sessions := sessions2, sessionsDisk := sessions2 },
          [.sent .running] ++ ev)
       | .error (sessionsE, ev, e) =>
         ({ st with
             busy := false
             sessions := clearPending sessionsE ck
             sessionsDisk := clearPending sessionsE ck },
          [.sent .running] ++ ev ++
            [.clearedPendingPush, .savedSessions,
             .sent (.errorText (e.take st.cfg.telegramMax))])) := by
  rw [mainPath]
  simp only [getSession_of_lookup hlk, hpp, beq_self_eq_true, Option.isSome_some,
    Bool.and_true, Option.isNone_some, Bool.and_false, Bool.false_eq_true, if_false,
    hbusy, if_true, Bool.true_and, if_true]

/-! ## Claim C1 -/

/-- C1: for every confirmed push (`/confirmpush` with a staged push while
the gate is free), `pendingPush` is null after the handler completes, and
it is cleared exactly once, on every outcome — the environment (and with
it success, skip, pre-check abort, task failure, and push failure) is
universally quantified. -/
theorem confirmpush_clears_pending (dd : RepoDef) (env : Env) (st : BotState) (ck : Str)
    {s : Session} {p : PendingPush}
    (hbusy : st.busy = false)
    (hlk : jsoLookup st.sessions ck = some s)
    (hpp : s.pendingPush = some p) :
    (jsoLookup (handleText dd env st ck (str "/confirmpush")).1.sessions ck).map
        (·.pendingPush) = some none ∧
    (handleText dd env st ck (str "/confirmpush")).2.count Event.clearedPendingPush = 1 := by
  rw [handleText, (by decide : trim (str "/confirmpush") = str "/confirmpush"),
    dispatch_confirmpush, mainPath_confirm_run env st ck hbusy hlk hpp]
  have htp := tryFull_push_pending env st.cfg ck p.description st.sessions s hlk
  cases htf : tryFull env st.cfg true ck p.description st.sessions with
  | ok pr =>
    rw [htf] at htp
    obtain ⟨m, ev⟩ := pr
    refine ⟨htp.1, ?_⟩
    rw [List.count_append, htp.2]
    rfl
  | error pr =>
    rw [htf] at htp
    obtain ⟨m, ev, e⟩ := pr
    obtain ⟨s', hs', _⟩ := Option.map_eq_some'.mp htp.1
    refine ⟨?_, ?_⟩
    · rw [jsoLookup_clearPending hs']
      rfl
    · rw [List.count_append, List.count_append, htp.2]
      rfl

/-- C1 witness: a staged push for chat `"1"`, a free gate, and the
all-success environment. -/
theorem confirmpush_clears_pending_witness :
    (jsoLookup (handleText testDefaultRepoDef testEnv testStagedState
        (str "1") (str "/confirmpush")).1.sessions (str "1")).map
        (·.pendingPush) = some none ∧
    (handleText testDefaultRepoDef testEnv testStagedState
        (str "1") (str "/confirmpush")).2.count Event.clearedPendingPush = 1 :=
  confirmpush_clears_pending testDefaultRepoDef testEnv testStagedState (str "1")
    rfl rfl rfl

/-! ## Claim C2 -/

/-- C2: for every confirmed push where the pre-checks pass and the task
returns: if `HEAD` is unchanged and the ahead-count is 0, the reported
status is the skipped block — whose second line reports whether the
working tree is still dirty — and `git push` is never invoked; in every
other case the push is performed (`git push` is invoked, whether or not it
then succeeds). -/
theorem confirmpush_skip_or_push (dd : RepoDef) (env : Env) (st : BotState) (ck : Str)
    {s : Session} {p : PendingPush} {rc : Str}
    (hbusy : st.busy = false)
    (hlk : jsoLookup st.sessions ck = some s)
    (hpp : s.pendingPush = some p)
    (hh1 : env.revParseHead1.code = 0)
    (hprobe : codexProbeAheadPositive env = false)
    (hcodex : runCodexE st.cfg env.codex = .ok rc)
    (hh2 : env.revParseHead2.code = 0) :
    ((trim env.revParseHead2.out = trim env.revParseHead1.out ∧
        getAheadCount env.revListAhead = 0) →
      Event.ranGitPush ∉ (handleText dd env st ck (str "/confirmpush")).2 ∧
      Event.sentLong
          (sanitizePushNarration rc ++ skippedBlock (trim env.statusPorcelain.out ≠ []))
          false ∈ (handleText dd env st ck (str "/confirmpush")).2) ∧
    (¬(trim env.revParseHead2.out = trim env.revParseHead1.out ∧
        getAheadCount env.revListAhead = 0) →
      Event.ranGitPush ∈ (handleText dd env st ck (str "/confirmpush")).2) := by
  rw [handleText, (by decide : trim (str "/confirmpush") = str "/confirmpush"),
    dispatch_confirmpush, mainPath_confirm_run env st ck hbusy hlk hpp]
  have hok1 : getHeadCommitE env.revParseHead1 = .ok (trim env.revParseHead1.out) := by
    rw [getHeadCommitE, if_neg (by simp [hh1])]
  have hok2 : getHeadCommitE env.revParseHead2 = .ok (trim env.revParseHead2.out) := by
    rw [getHeadCommitE, if_neg (by simp [hh2])]
  constructor
  · intro hskip
    simp only [tryFull, hok1, if_true, hprobe, Bool.false_eq_true, if_false, tryBody,
      hcodex, hok2, if_pos hskip]
    exact ⟨by simp, by simp⟩
  · intro hskip
    by_cases hpc : env.push.code ≠ 0
    · simp only [tryFull, hok1, if_true, hprobe, Bool.false_eq_true, if_false, tryBody,
        hcodex, hok2, if_neg hskip, if_pos hpc]
      simp
    · simp only [tryFull, hok1, if_true, hprobe, Bool.false_eq_true, if_false, tryBody,
        hcodex, hok2, if_neg hskip, if_neg hpc]
      simp

/-- C2 witness: the all-success environment, where `HEAD` is unchanged and
the ahead-count is 0, with a clean working tree. -/
theorem confirmpush_skip_or_push_witness :
    Event.ranGitPush ∉ (handleText testDefaultRepoDef testEnv testStagedState
        (str "1") (str "/confirmpush")).2 ∧
    Event.sentLong
        (sanitizePushNarration (str "done") ++
          skippedBlock (trim testEnv.statusPorcelain.out ≠ []))
        false ∈ (handleText testDefaultRepoDef testEnv testStagedState
        (str "1") (str "/confirmpush")).2 :=
  (confirmpush_skip_or_push testDefaultRepoDef testEnv testStagedState (str "1")
      rfl rfl rfl rfl (by decide) rfl rfl).1 (by constructor <;> decide)

/-! ## Claim C3 -/

/-- C3: for every confirmed push where the `.git-codex` probe succeeds and
reports a commit count greater than 0, the handler aborts with the cleanup
error before the task executor is ever invoked — `Event.ranCodex`, emitted
exactly when `runCodex` is called, does not occur. -/
theorem precheck_aborts_before_codex (dd : RepoDef) (env : Env) (st : BotState) (ck : Str)
    {s : Session} {p : PendingPush}
    (hbusy : st.busy = false)
    (hlk : jsoLookup st.sessions ck = some s)
    (hpp : s.pendingPush = some p)
    (hh1 : env.revParseHead1.code = 0)
    (hprobe : codexProbeAheadPositive env = true) :
    (handleText dd env st ck (str "/confirmpush")).2 =
      [.sent .running, .clearedPendingPush, .savedSessions,
       .sent (.errorText (codexCleanupMsg.take st.cfg.telegramMax))] ∧
    Event.ranCodex ∉ (handleText dd env st ck (str "/confirmpush")).2 := by
  rw [handleText, (by decide : trim (str "/confirmpush") = str "/confirmpush"),
    dispatch_confirmpush, mainPath_confirm_run env st ck hbusy hlk hpp]
  have hok1 : getHeadCommitE env.revParseHead1 = .ok (trim env.revParseHead1.out) := by
    rw [getHeadCommitE, if_neg (by simp [hh1])]
  have htf : tryFull env st.cfg true ck p.description st.sessions =
      .error (st.sessions, [], codexCleanupMsg) := by
    simp only [tryFull, hok1, if_true, if_pos hprobe]
  rw [htf]
  exact ⟨rfl, by simp⟩

/-- C3 witness: the probe reports 2 commits ahead in `.git-codex`. -/
theorem precheck_aborts_before_codex_witness :
    (handleText testDefaultRepoDef testEnvProbeAhead testStagedState
        (str "1") (str "/confirmpush")).2 =
      [.sent .running, .clearedPendingPush, .savedSessions,
       .sent (.errorText (codexCleanupMsg.take testStagedState.cfg.telegramMax))] ∧
    Event.ranCodex ∉ (handleText testDefaultRepoDef testEnvProbeAhead testStagedState
        (str "1") (str "/confirmpush")).2 :=
  precheck_aborts_before_codex testDefaultRepoDef testEnvProbeAhead testStagedState
    (str "1") rfl rfl rfl rfl (by decide)

end Bridge
